import Mathlib

set_option maxHeartbeats 1000000
set_option linter.unusedVariables false
set_option linter.unreachableTactic false
set_option linter.unusedTactic false

/-!
Shallow embedding of the IRTK ternary voxel-traversal engine
(irtkForEachTernaryVoxelFunction.h): the traversal bodies for three const
images (irtkTernaryForEachVoxelBody_Const, irtkTernaryForEachVoxelIfBody_Const)
and the dispatch facade entry points built on them.  The engine is generic in
the voxel functor; the embedding therefore records the exact sequence of calls
the engine performs (per-voxel invocations and functor joins) as a trace of
events, together with the pointer arguments passed at each call.  Machine
pointers are modelled as a buffer base address plus an element offset; the C
NULL pointer is address zero.
-/

/-- Modelled from the spec: the domain descriptor irtkImageAttributes (its
defining header is not among the analyzed sources; only the extents _x, _y,
_z, _t and the temporal spacing _dt are consumed by the traversal code).
The spacing is kept as an integer since the code only ever tests it for
truthiness (nonzero means a genuine time series). -/
structure irtkImageAttributes where
  x : Nat
  y : Nat
  z : Nat
  t : Nat
  dt : Int
deriving DecidableEq, Repr

/-- Modelled from the spec: a voxel cursor is a raw pointer into an image
buffer, represented by the buffer base address (in voxel units, 0 encodes the
C NULL pointer) plus an element offset accumulated by pointer arithmetic. -/
structure VoxelPtr where
  base : Nat
  off : Int
deriving DecidableEq, Repr

/-- Pointer arithmetic: advance a cursor by n elements. -/
def VoxelPtr.add (p : VoxelPtr) (n : Int) : VoxelPtr := ⟨p.base, p.off + n⟩

/-- The machine address a cursor denotes, in element units. -/
def VoxelPtr.addr (p : VoxelPtr) : Int := (p.base : Int) + p.off

/-- Null test as performed by client code comparing the pointer against NULL. -/
def VoxelPtr.isNullB (p : VoxelPtr) : Bool := p.addr == 0

/-- The C NULL pointer. -/
def nullPtr : VoxelPtr := ⟨0, 0⟩

/-- Modelled from the spec: the image collaborator (irtkGenericImage is not
among the analyzed sources).  The traversal engine consumes only the domain
attributes and the raw buffer pointer, so an image is its attributes plus the
base address of its contiguous voxel buffer. -/
structure irtkGenericImage where
  attr : irtkImageAttributes
  base : Nat
deriving DecidableEq, Repr

/-- Modelled from the spec: per-axis extent query GetX(). -/
def GetX (im : irtkGenericImage) : Nat := im.attr.x

/-- Modelled from the spec: per-axis extent query GetY(). -/
def GetY (im : irtkGenericImage) : Nat := im.attr.y

/-- Modelled from the spec: per-axis extent query GetZ(). -/
def GetZ (im : irtkGenericImage) : Nat := im.attr.z

/-- Modelled from the spec: per-axis extent query GetT(). -/
def GetT (im : irtkGenericImage) : Nat := im.attr.t

/-- Modelled from the spec: temporal spacing query GetTSize(); the facade only
tests it for truthiness. -/
def GetTSize (im : irtkGenericImage) : Int := im.attr.dt

/-- Modelled from the spec: total voxel (scalar element) count, the product of
all four extents. -/
def GetNumberOfVoxels (im : irtkGenericImage) : Nat :=
  im.attr.x * im.attr.y * im.attr.z * im.attr.t

/-- Modelled from the spec: empty-image query, true when the image holds no
voxels. -/
def isEmptyIm (im : irtkGenericImage) : Bool := GetNumberOfVoxels im == 0

/-- Modelled from the spec: row-major (x fastest) flat index of voxel
(i, j, k, l) within an image. -/
def VoxelIndex (im : irtkGenericImage) (i j k l : Nat) : Nat :=
  im.attr.x * (im.attr.y * (im.attr.z * l + k) + j) + i

/-- Modelled from the spec: raw pointer to the first voxel of the buffer. -/
def GetPointerToVoxels (im : irtkGenericImage) : VoxelPtr := ⟨im.base, 0⟩

/-- Modelled from the spec: raw pointer to voxel (i, j, k, l). -/
def GetPointerToVoxels4 (im : irtkGenericImage) (i j k l : Nat) : VoxelPtr :=
  ⟨im.base, (VoxelIndex im i j k l : Int)⟩

/-- Which of the two functors of a predicated traversal a call goes to; plain
traversals only ever use the inside slot. -/
inductive FSlot where
  | inside
  | outside
deriving DecidableEq, Repr

/-- One observable action of the engine: a 4-coordinate functor invocation, a
flat-index (linear-range) functor invocation recording which image object is
passed as the image argument, or an invocation of a functor's join merge
operation. -/
inductive TraceEvent where
  | callCoord (s : FSlot) (i j k l : Nat) (p1 p2 p3 : VoxelPtr)
  | callIdx (s : FSlot) (im : irtkGenericImage) (idx : Nat) (p1 p2 p3 : VoxelPtr)
  | joinEv (s : FSlot)
deriving DecidableEq, Repr

/-- Modelled from the spec: the domain-predicate capability (irtkImageDomain
is not among the analyzed sources): a pure boolean query in a 4-coordinate
form and a flat-index form, both taking the reference image and the current
voxel pointer. -/
structure ImageDomain where
  insideCoord : irtkGenericImage → Nat → Nat → Nat → Nat → VoxelPtr → Bool
  insideIdx : irtkGenericImage → Nat → VoxelPtr → Bool

/-- True for functor invocations, false for joins. -/
def TraceEvent.isCall : TraceEvent → Bool
  | .joinEv _ => false
  | _ => true

/-- True for join events. -/
def TraceEvent.isJoin : TraceEvent → Bool
  | .joinEv _ => true
  | _ => false

/-- The 4-coordinate of a coordinate-form invocation. -/
def TraceEvent.coordsOf : TraceEvent → Option (Nat × Nat × Nat × Nat)
  | .callCoord _ i j k l _ _ _ => some (i, j, k, l)
  | _ => none

/-- The first image's cursor argument of an invocation. -/
def TraceEvent.p1Of : TraceEvent → Option VoxelPtr
  | .callCoord _ _ _ _ _ p1 _ _ => some p1
  | .callIdx _ _ _ p1 _ _ => some p1
  | .joinEv _ => none

/-- Number of functor invocations in a trace. -/
def countCalls (tr : List TraceEvent) : Nat := tr.countP TraceEvent.isCall

/-- Number of join invocations in a trace. -/
def countJoins (tr : List TraceEvent) : Nat := tr.countP TraceEvent.isJoin

/-- Result of running a loop nest: the emitted trace and the final value of
each image cursor. -/
structure LoopOut where
  trace : List TraceEvent
  q1 : VoxelPtr
  q2 : VoxelPtr
  q3 : VoxelPtr

/-- Innermost x-loop shared by the plain (non-predicated) traversal body
operators: n iterations starting at column i, one 4-coordinate invocation per
voxel, every cursor advanced by one element per iteration
(`++i, ++p1, ++p2, ++p3`). -/
def xLoop : Nat → Nat → Nat → Nat → Nat → VoxelPtr → VoxelPtr → VoxelPtr → LoopOut
  | 0, _, _, _, _, p1, p2, p3 => ⟨[], p1, p2, p3⟩
  | n+1, i, j, k, l, p1, p2, p3 =>
    let r := xLoop n (i+1) j k l (p1.add 1) (p2.add 1) (p3.add 1)
    ⟨.callCoord .inside i j k l p1 p2 p3 :: r.trace, r.q1, r.q2, r.q3⟩

/-- The j-loop of the whole-domain operator (no extra stride; cursors simply
continue across rows): rows iterations starting at row j, each running the
x-loop over the full width x from column 0. -/
def yLoopAttr : Nat → Nat → Nat → Nat → Nat → VoxelPtr → VoxelPtr → VoxelPtr → LoopOut
  | 0, _, _, _, _, p1, p2, p3 => ⟨[], p1, p2, p3⟩
  | rows+1, j, k, l, x, p1, p2, p3 =>
    let rx := xLoop x 0 j k l p1 p2 p3
    let ry := yLoopAttr rows (j+1) k l x rx.q1 rx.q2 rx.q3
    ⟨rx.trace ++ ry.trace, ry.q1, ry.q2, ry.q3⟩

/-- The k-loop of the whole-domain operator. -/
def zLoopAttr : Nat → Nat → Nat → Nat → Nat → VoxelPtr → VoxelPtr → VoxelPtr → LoopOut
  | 0, _, _, _, _, p1, p2, p3 => ⟨[], p1, p2, p3⟩
  | planes+1, k, l, y, x, p1, p2, p3 =>
    let rj := yLoopAttr y 0 k l x p1 p2 p3
    let rk := zLoopAttr planes (k+1) l y x rj.q1 rj.q2 rj.q3
    ⟨rj.trace ++ rk.trace, rk.q1, rk.q2, rk.q3⟩

/-- The l-loop of the whole-domain operator. -/
def tLoopAttr : Nat → Nat → Nat → Nat → Nat → VoxelPtr → VoxelPtr → VoxelPtr → LoopOut
  | 0, _, _, _, _, p1, p2, p3 => ⟨[], p1, p2, p3⟩
  | ts+1, l, z, y, x, p1, p2, p3 =>
    let rk := zLoopAttr z 0 l y x p1 p2 p3
    let rl := tLoopAttr ts (l+1) z y x rk.q1 rk.q2 rk.q3
    ⟨rk.trace ++ rl.trace, rl.q1, rl.q2, rl.q3⟩

/-- Initial cursor of an image for a whole-domain traversal: NULL when the
image reports empty, otherwise the raw buffer pointer
(`im.IsEmpty() ? NULL : im.GetPointerToVoxels()`). -/
def startPtr (im : irtkGenericImage) : VoxelPtr :=
  if isEmptyIm im then nullPtr else GetPointerToVoxels im

/-- Initial cursor of an image for a linear-range traversal beginning at flat
index b (`im.IsEmpty() ? NULL : im.GetPointerToVoxels() + re.begin()`); note
the begin offset is applied only in the non-empty branch. -/
def startPtrB (im : irtkGenericImage) (b : Nat) : VoxelPtr :=
  if isEmptyIm im then nullPtr else (GetPointerToVoxels im).add b

/-- Number of temporal iterations of the whole-domain operator:
`const int T = (attr._dt ? attr._t : 1)`. -/
def effT (attr : irtkImageAttributes) : Nat := if attr.dt ≠ 0 then attr.t else 1

/-- irtkTernaryForEachVoxelBody_Const::operator()(const irtkImageAttributes &):
whole-domain traversal, l outermost then k, j, i, each cursor starting at the
buffer head (NULL for an empty image) and advancing one voxel per invocation. -/
def runAttr (im1 im2 im3 : irtkGenericImage) (attr : irtkImageAttributes) :
    List TraceEvent :=
  (tLoopAttr (effT attr) 0 attr.z attr.y attr.x
    (startPtr im1) (startPtr im2) (startPtr im3)).trace

/-- The idx-loop of the linear-range operator: n iterations starting at flat
index idx; each invocation uses the alternate (image, index) call form passing
im3, and advances every cursor by one element. -/
def idxLoop (im3 : irtkGenericImage) : Nat → Nat → VoxelPtr → VoxelPtr → VoxelPtr → LoopOut
  | 0, _, p1, p2, p3 => ⟨[], p1, p2, p3⟩
  | n+1, idx, p1, p2, p3 =>
    let r := idxLoop im3 n (idx+1) (p1.add 1) (p2.add 1) (p3.add 1)
    ⟨.callIdx .inside im3 idx p1 p2 p3 :: r.trace, r.q1, r.q2, r.q3⟩

/-- irtkTernaryForEachVoxelBody_Const::operator()(const blocked_range<int> &):
linear-range traversal over flat indices [b, e). -/
def runRange1 (im1 im2 im3 : irtkGenericImage) (b e : Nat) : List TraceEvent :=
  (idxLoop im3 (e - b) b (startPtrB im1 b) (startPtrB im2 b) (startPtrB im3 b)).trace

/-- Row stride of the 2-D/3-D range operators:
`const int s1 = im3.GetX() - (ei - bi)`, computed from the last image's full
row width and the sub-range width. -/
def s1Of (im3 : irtkGenericImage) (bi ei : Nat) : Int :=
  (GetX im3 : Int) - ((ei : Int) - (bi : Int))

/-- Plane stride of the 3-D range operator:
`const int s2 = (im3.GetY() - (ej - bj)) * im3.GetX()`. -/
def s2Of (im3 : irtkGenericImage) (bj ej : Nat) : Int :=
  ((GetY im3 : Int) - ((ej : Int) - (bj : Int))) * (GetX im3 : Int)

/-- The strided j-loop of the 2-D (and inner j-loop of the 3-D) range
operator: after each row's x-loop over [bi, bi+cols) every cursor advances by
the row stride s1. -/
def yLoop (bi cols k l : Nat) (s1 : Int) :
    Nat → Nat → VoxelPtr → VoxelPtr → VoxelPtr → LoopOut
  | 0, _, p1, p2, p3 => ⟨[], p1, p2, p3⟩
  | rows+1, j, p1, p2, p3 =>
    let rx := xLoop cols bi j k l p1 p2 p3
    let ry := yLoop bi cols k l s1 rows (j+1) (rx.q1.add s1) (rx.q2.add s1) (rx.q3.add s1)
    ⟨rx.trace ++ ry.trace, ry.q1, ry.q2, ry.q3⟩

/-- The strided k-loop of the 3-D range operator: after each page's j-loop
every cursor advances by the plane stride s2. -/
def zLoop (bi cols bj rows l : Nat) (s1 s2 : Int) :
    Nat → Nat → VoxelPtr → VoxelPtr → VoxelPtr → LoopOut
  | 0, _, p1, p2, p3 => ⟨[], p1, p2, p3⟩
  | pages+1, k, p1, p2, p3 =>
    let ry := yLoop bi cols k l s1 rows bj p1 p2 p3
    let rz := zLoop bi cols bj rows l s1 s2 pages (k+1)
      (ry.q1.add s2) (ry.q2.add s2) (ry.q3.add s2)
    ⟨ry.trace ++ rz.trace, rz.q1, rz.q2, rz.q3⟩

/-- Initial cursor of an image for a 2-D/3-D range traversal
(`im.IsEmpty() ? NULL : im.GetPointerToVoxels(bi, bj, k, l)`). -/
def startPtr4 (im : irtkGenericImage) (i j k l : Nat) : VoxelPtr :=
  if isEmptyIm im then nullPtr else GetPointerToVoxels4 im i j k l

/-- irtkTernaryForEachVoxelBody_Const::operator()(const blocked_range2d<int> &):
rows [bj, ej) by columns [bi, ei) within the fixed plane k and channel l
carried as body state. -/
def runRange2 (im1 im2 im3 : irtkGenericImage) (bi ei bj ej k l : Nat) :
    List TraceEvent :=
  (yLoop bi (ei - bi) k l (s1Of im3 bi ei) (ej - bj) bj
    (startPtr4 im1 bi bj k l) (startPtr4 im2 bi bj k l) (startPtr4 im3 bi bj k l)).trace

/-- irtkTernaryForEachVoxelBody_Const::operator()(const blocked_range3d<int> &):
pages [bk, ek) by rows [bj, ej) by columns [bi, ei) within the fixed channel l. -/
def runRange3 (im1 im2 im3 : irtkGenericImage) (bi ei bj ej bk ek l : Nat) :
    List TraceEvent :=
  (zLoop bi (ei - bi) bj (ej - bj) l (s1Of im3 bi ei) (s2Of im3 bj ej) (ek - bk) bk
    (startPtr4 im1 bi bj bk l) (startPtr4 im2 bi bj bk l) (startPtr4 im3 bi bj bk l)).trace

/-- Innermost x-loop of the predicated traversal body operators: identical
cursor stepping to the plain x-loop, but each voxel first tests
`Domain::IsInside(im3, i, j, k, l, p3)` and dispatches to the inside or
outside functor accordingly, with identical arguments either way. -/
def xLoopIf (dom : ImageDomain) (im3 : irtkGenericImage) :
    Nat → Nat → Nat → Nat → Nat → VoxelPtr → VoxelPtr → VoxelPtr → LoopOut
  | 0, _, _, _, _, p1, p2, p3 => ⟨[], p1, p2, p3⟩
  | n+1, i, j, k, l, p1, p2, p3 =>
    let s := if dom.insideCoord im3 i j k l p3 then FSlot.inside else FSlot.outside
    let r := xLoopIf dom im3 n (i+1) j k l (p1.add 1) (p2.add 1) (p3.add 1)
    ⟨.callCoord s i j k l p1 p2 p3 :: r.trace, r.q1, r.q2, r.q3⟩

/-- The j-loop of the predicated whole-domain operator. -/
def yLoopAttrIf (dom : ImageDomain) (im3 : irtkGenericImage) :
    Nat → Nat → Nat → Nat → Nat → VoxelPtr → VoxelPtr → VoxelPtr → LoopOut
  | 0, _, _, _, _, p1, p2, p3 => ⟨[], p1, p2, p3⟩
  | rows+1, j, k, l, x, p1, p2, p3 =>
    let rx := xLoopIf dom im3 x 0 j k l p1 p2 p3
    let ry := yLoopAttrIf dom im3 rows (j+1) k l x rx.q1 rx.q2 rx.q3
    ⟨rx.trace ++ ry.trace, ry.q1, ry.q2, ry.q3⟩

/-- The k-loop of the predicated whole-domain operator. -/
def zLoopAttrIf (dom : ImageDomain) (im3 : irtkGenericImage) :
    Nat → Nat → Nat → Nat → Nat → VoxelPtr → VoxelPtr → VoxelPtr → LoopOut
  | 0, _, _, _, _, p1, p2, p3 => ⟨[], p1, p2, p3⟩
  | planes+1, k, l, y, x, p1, p2, p3 =>
    let rj := yLoopAttrIf dom im3 y 0 k l x p1 p2 p3
    let rk := zLoopAttrIf dom im3 planes (k+1) l y x rj.q1 rj.q2 rj.q3
    ⟨rj.trace ++ rk.trace, rk.q1, rk.q2, rk.q3⟩

/-- The l-loop of the predicated whole-domain operator. -/
def tLoopAttrIf (dom : ImageDomain) (im3 : irtkGenericImage) :
    Nat → Nat → Nat → Nat → Nat → VoxelPtr → VoxelPtr → VoxelPtr → LoopOut
  | 0, _, _, _, _, p1, p2, p3 => ⟨[], p1, p2, p3⟩
  | ts+1, l, z, y, x, p1, p2, p3 =>
    let rk := zLoopAttrIf dom im3 z 0 l y x p1 p2 p3
    let rl := tLoopAttrIf dom im3 ts (l+1) z y x rk.q1 rk.q2 rk.q3
    ⟨rk.trace ++ rl.trace, rl.q1, rl.q2, rl.q3⟩

/-- irtkTernaryForEachVoxelIfBody_Const::operator()(const irtkImageAttributes &):
predicated whole-domain traversal. -/
def runIfAttr (dom : ImageDomain) (im1 im2 im3 : irtkGenericImage)
    (attr : irtkImageAttributes) : List TraceEvent :=
  (tLoopAttrIf dom im3 (effT attr) 0 attr.z attr.y attr.x
    (startPtr im1) (startPtr im2) (startPtr im3)).trace

/-- The idx-loop of the predicated linear-range operator: the predicate is
tested in its flat-index form `Domain::IsInside(im3, idx, p3)` and both
functors receive the image argument im3 and identical cursors. -/
def idxLoopIf (dom : ImageDomain) (im3 : irtkGenericImage) :
    Nat → Nat → VoxelPtr → VoxelPtr → VoxelPtr → LoopOut
  | 0, _, p1, p2, p3 => ⟨[], p1, p2, p3⟩
  | n+1, idx, p1, p2, p3 =>
    let s := if dom.insideIdx im3 idx p3 then FSlot.inside else FSlot.outside
    let r := idxLoopIf dom im3 n (idx+1) (p1.add 1) (p2.add 1) (p3.add 1)
    ⟨.callIdx s im3 idx p1 p2 p3 :: r.trace, r.q1, r.q2, r.q3⟩

/-- irtkTernaryForEachVoxelIfBody_Const::operator()(const blocked_range<int> &). -/
def runIfRange1 (dom : ImageDomain) (im1 im2 im3 : irtkGenericImage) (b e : Nat) :
    List TraceEvent :=
  (idxLoopIf dom im3 (e - b) b (startPtrB im1 b) (startPtrB im2 b) (startPtrB im3 b)).trace

/-- The strided j-loop of the predicated 3-D range operator. -/
def yLoopIf (dom : ImageDomain) (im3 : irtkGenericImage) (bi cols k l : Nat) (s1 : Int) :
    Nat → Nat → VoxelPtr → VoxelPtr → VoxelPtr → LoopOut
  | 0, _, p1, p2, p3 => ⟨[], p1, p2, p3⟩
  | rows+1, j, p1, p2, p3 =>
    let rx := xLoopIf dom im3 cols bi j k l p1 p2 p3
    let ry := yLoopIf dom im3 bi cols k l s1 rows (j+1)
      (rx.q1.add s1) (rx.q2.add s1) (rx.q3.add s1)
    ⟨rx.trace ++ ry.trace, ry.q1, ry.q2, ry.q3⟩

/-- The strided k-loop of the predicated 3-D range operator. -/
def zLoopIf (dom : ImageDomain) (im3 : irtkGenericImage)
    (bi cols bj rows l : Nat) (s1 s2 : Int) :
    Nat → Nat → VoxelPtr → VoxelPtr → VoxelPtr → LoopOut
  | 0, _, p1, p2, p3 => ⟨[], p1, p2, p3⟩
  | pages+1, k, p1, p2, p3 =>
    let ry := yLoopIf dom im3 bi cols k l s1 rows bj p1 p2 p3
    let rz := zLoopIf dom im3 bi cols bj rows l s1 s2 pages (k+1)
      (ry.q1.add s2) (ry.q2.add s2) (ry.q3.add s2)
    ⟨ry.trace ++ rz.trace, rz.q1, rz.q2, rz.q3⟩

/-- irtkTernaryForEachVoxelIfBody_Const::operator()(const blocked_range3d<int> &). -/
def runIfRange3 (dom : ImageDomain) (im1 im2 im3 : irtkGenericImage)
    (bi ei bj ej bk ek l : Nat) : List TraceEvent :=
  (zLoopIf dom im3 bi (ei - bi) bj (ej - bj) l (s1Of im3 bi ei) (s2Of im3 bj ej)
    (ek - bk) bk
    (startPtr4 im1 bi bj bk l) (startPtr4 im2 bi bj bk l) (startPtr4 im3 bi bj bk l)).trace

/-- Fatal configuration-error message printed to stderr by
_irtkforeachternaryvoxelfunction_must_not_be_reduction before exit(1). -/
def mustNotBeReductionMessage : String :=
  "(Parallel)ForEachVoxel(If): Voxel reductions must be passed by reference! Pass voxel functor object(s) as last argument(s) instead of first."

/-- Outcome of a facade call that performs the reduction misuse check: either
the fatal guard fires (message to stderr, process terminates before any voxel
is touched) or the traversal runs and produces its trace. -/
inductive CallResult where
  | fatal (msg : String)
  | ok (trace : List TraceEvent)
deriving DecidableEq, Repr

/-- Number of functor invocations of a possibly-fatal, possibly-diverging
facade outcome (0 when the guard fired or no result was produced). -/
def okCalls : Option CallResult → Nat
  | some (.ok tr) => countCalls tr
  | _ => 0

/-- Sequential ForEachScalar with functor by reference: runs the linear-range
body over blocked_range(0, im3.GetNumberOfVoxels()) and then calls
vf.join(body._VoxelFunc) unconditionally.  The argument vfIsRed records
VoxelFunc::IsReduction(), which this entry point never consults. -/
def ForEachScalar_ref (im1 im2 im3 : irtkGenericImage) (vfIsRed : Bool) :
    List TraceEvent :=
  runRange1 im1 im2 im3 0 (GetNumberOfVoxels im3) ++ [.joinEv .inside]

/-- Sequential rangeless ForEachVoxel with functor by reference: if
im3.GetTSize() is nonzero delegate to ForEachScalar, otherwise run the
linear-range body over blocked_range(0, GetNumberOfVoxels / GetT) and join
unconditionally. -/
def ForEachVoxel_ref (im1 im2 im3 : irtkGenericImage) (vfIsRed : Bool) :
    List TraceEvent :=
  if GetTSize im3 ≠ 0 then
    ForEachScalar_ref im1 im2 im3 vfIsRed
  else
    runRange1 im1 im2 im3 0 (GetNumberOfVoxels im3 / GetT im3) ++ [.joinEv .inside]

/-- Sequential rangeless ForEachVoxel with functor by value: checks
VoxelFunc::IsReduction() and fails fast, otherwise delegates to the
functor-by-reference implementation. -/
def ForEachVoxel_val (im1 im2 im3 : irtkGenericImage) (vfIsRed : Bool) : CallResult :=
  if vfIsRed then CallResult.fatal mustNotBeReductionMessage
  else CallResult.ok (ForEachVoxel_ref im1 im2 im3 vfIsRed)

/-- Sequential rangeless ForEachVoxelIf with images and functors by reference.
When im3.GetTSize() is nonzero the source calls the very same overload again
(instead of ForEachScalarIf), so the definition is fuel-indexed: none models a
call that never returns.  In the zero-spacing branch it runs the predicated
linear-range body over blocked_range(0, GetNumberOfVoxels / GetT) and then
joins both functors unconditionally. -/
def ForEachVoxelIf_ref_noRange (dom : ImageDomain) :
    Nat → irtkGenericImage → irtkGenericImage → irtkGenericImage →
    Option (List TraceEvent)
  | 0, _, _, _ => none
  | fuel+1, im1, im2, im3 =>
    if GetTSize im3 ≠ 0 then
      ForEachVoxelIf_ref_noRange dom fuel im1 im2 im3
    else
      some (runIfRange1 dom im1 im2 im3 0 (GetNumberOfVoxels im3 / GetT im3)
        ++ [.joinEv .inside, .joinEv .outside])

/-- Sequential ForEachVoxelIf over an explicit blocked_range3d with images and
functors by reference: runs the predicated 3-D range body (body state
_l = 0) and joins both functors unconditionally. -/
def ForEachVoxelIf_ref_range3d (dom : ImageDomain) (bi ei bj ej bk ek : Nat)
    (im1 im2 im3 : irtkGenericImage) : List TraceEvent :=
  runIfRange3 dom im1 im2 im3 bi ei bj ej bk ek 0
    ++ [.joinEv .inside, .joinEv .outside]

/-- Sequential ForEachVoxelIf overload taking the two functors by value
together with an explicit blocked_range3d (image arguments by pointer): after
the reduction guard it delegates with the range argument dropped, calling the
rangeless functor-by-reference overload on the whole image. -/
def ForEachVoxelIf_val_range3d (dom : ImageDomain) (fuel : Nat)
    (bi ei bj ej bk ek : Nat) (im1 im2 im3 : irtkGenericImage)
    (vfIsRed ofIsRed : Bool) : Option CallResult :=
  if vfIsRed || ofIsRed then some (CallResult.fatal mustNotBeReductionMessage)
  else (ForEachVoxelIf_ref_noRange dom fuel im1 im2 im3).map CallResult.ok

/-- Modelled from the spec: the fork-join scheduler's parallel-for primitive.
It partitions the submitted range (grain size chosen by the scheduler, here an
explicit list of sub-ranges) and invokes an independent copy of the body on
each partition; partial body copies are discarded without any join. -/
def parallel_for (parts : List (Nat × Nat)) (run : Nat → Nat → List TraceEvent) :
    List TraceEvent :=
  (parts.map (fun r => run r.1 r.2)).flatten

/-- Modelled from the spec: the fork-join scheduler's parallel-reduce
primitive.  As parallel-for, but bodies are produced by splitting and, after
all partitions complete, partial functor states are folded: one body join per
pair of sibling partitions (parts.length - 1 merges for parts.length leaves),
each merge emitting the body's join events bodyJoin. -/
def parallel_reduce (parts : List (Nat × Nat)) (run : Nat → Nat → List TraceEvent)
    (bodyJoin : List TraceEvent) : List TraceEvent :=
  (parts.map (fun r => run r.1 r.2)).flatten
    ++ (List.range (parts.length - 1)).flatMap (fun _ => bodyJoin)

/-- ParallelForEachScalar with functor by reference: submits the linear-range
body over blocked_range(0, im3.GetNumberOfVoxels()); when
VoxelFunc::IsReduction() it uses parallel_reduce and then joins the merged
partial into the caller's functor, otherwise a plain parallel_for. -/
def ParallelForEachScalar_ref (parts : List (Nat × Nat))
    (im1 im2 im3 : irtkGenericImage) (vfIsRed : Bool) : List TraceEvent :=
  if vfIsRed then
    parallel_reduce parts (fun b e => runRange1 im1 im2 im3 b e) [.joinEv .inside]
      ++ [.joinEv .inside]
  else
    parallel_for parts (fun b e => runRange1 im1 im2 im3 b e)

/-- Parallel rangeless ForEachVoxel with functor by reference: if
im3.GetTSize() is nonzero delegate to ParallelForEachScalar, otherwise submit
the body over blocked_range(0, GetNumberOfVoxels / GetT). -/
def ParallelForEachVoxel_ref_noRange (parts : List (Nat × Nat))
    (im1 im2 im3 : irtkGenericImage) (vfIsRed : Bool) : List TraceEvent :=
  if GetTSize im3 ≠ 0 then
    ParallelForEachScalar_ref parts im1 im2 im3 vfIsRed
  else if vfIsRed then
    parallel_reduce parts (fun b e => runRange1 im1 im2 im3 b e) [.joinEv .inside]
      ++ [.joinEv .inside]
  else
    parallel_for parts (fun b e => runRange1 im1 im2 im3 b e)

/-- Parallel rangeless ParallelForEachVoxelIf with image arguments by
reference.  When im3.GetTSize() is nonzero the source calls the very same
overload again (instead of ParallelForEachScalarIf), so the definition is
fuel-indexed: none models a call that never returns.  In the zero-spacing
branch it submits the predicated linear-range body over
blocked_range(0, GetNumberOfVoxels / GetT); when either functor is a
reduction it parallel-reduces and joins both functors, else parallel-for. -/
def ParallelForEachVoxelIf_ref_noRange (dom : ImageDomain) (parts : List (Nat × Nat)) :
    Nat → irtkGenericImage → irtkGenericImage → irtkGenericImage → Bool → Bool →
    Option (List TraceEvent)
  | 0, _, _, _, _, _ => none
  | fuel+1, im1, im2, im3, vfIsRed, ofIsRed =>
    if GetTSize im3 ≠ 0 then
      ParallelForEachVoxelIf_ref_noRange dom parts fuel im1 im2 im3 vfIsRed ofIsRed
    else
      some (if vfIsRed || ofIsRed then
        parallel_reduce parts (fun b e => runIfRange1 dom im1 im2 im3 b e)
          [.joinEv .inside, .joinEv .outside] ++ [.joinEv .inside, .joinEv .outside]
      else
        parallel_for parts (fun b e => runIfRange1 dom im1 im2 im3 b e))

/-- Parallel rangeless ParallelForEachVoxelIf with image arguments by pointer:
when im3->GetTSize() is nonzero it dereferences the pointers and calls the
image-by-reference overload above (which then recurses on itself), otherwise
it runs the same zero-spacing branch. -/
def ParallelForEachVoxelIf_ptr_noRange (dom : ImageDomain) (parts : List (Nat × Nat))
    (fuel : Nat) (im1 im2 im3 : irtkGenericImage) (vfIsRed ofIsRed : Bool) :
    Option (List TraceEvent) :=
  if GetTSize im3 ≠ 0 then
    ParallelForEachVoxelIf_ref_noRange dom parts fuel im1 im2 im3 vfIsRed ofIsRed
  else
    some (if vfIsRed || ofIsRed then
      parallel_reduce parts (fun b e => runIfRange1 dom im1 im2 im3 b e)
        [.joinEv .inside, .joinEv .outside] ++ [.joinEv .inside, .joinEv .outside]
    else
      parallel_for parts (fun b e => runIfRange1 dom im1 im2 im3 b e))

/-- Validity of a scheduler partition: the listed sub-ranges are consecutive,
cover [b, e) exactly, and each is well formed. -/
def chainFrom : Nat → Nat → List (Nat × Nat) → Bool
  | b, e, [] => b == e
  | b, e, (lo, hi) :: rest => b == lo && lo ≤ hi && chainFrom hi e rest

/-- Retagging function for the predicated bodies: given the plain body's
event, recompute which functor the predicated body would have dispatched to
from the same image argument, coordinates and third-image cursor. -/
def retag (dom : ImageDomain) (im3 : irtkGenericImage) : TraceEvent → TraceEvent
  | .callCoord _ i j k l p1 p2 p3 =>
    .callCoord (if dom.insideCoord im3 i j k l p3 then FSlot.inside else FSlot.outside)
      i j k l p1 p2 p3
  | .callIdx _ im idx p1 p2 p3 =>
    .callIdx (if dom.insideIdx im3 idx p3 then FSlot.inside else FSlot.outside)
      im idx p1 p2 p3
  | .joinEv s => .joinEv s

/-- Total number of voxels of the whole-domain traversal: the temporal
iteration count times the spatial extents. -/
def attrN (attr : irtkImageAttributes) : Nat :=
  effT attr * (attr.z * (attr.y * attr.x))

/-- The n-th invocation of the whole-domain traversal in flat order: the
coordinates are the base-(x, y, z) digits of n (x fastest, t slowest) and
every cursor has advanced exactly n voxels from its start. -/
def gAttr (im1 im2 im3 : irtkGenericImage) (attr : irtkImageAttributes) (n : Nat) :
    TraceEvent :=
  .callCoord .inside (n % attr.x) (n / attr.x % attr.y) (n / attr.x / attr.y % attr.z)
    (n / attr.x / attr.y / attr.z)
    ((startPtr im1).add n) ((startPtr im2).add n) ((startPtr im3).add n)

/-- Advancing a cursor by zero is the identity. -/
theorem VoxelPtr.add_zero (p : VoxelPtr) : p.add 0 = p := by
  simp [VoxelPtr.add]

/-- Cursor advances compose additively. -/
theorem VoxelPtr.add_add (p : VoxelPtr) (a b : Int) :
    (p.add a).add b = p.add (a + b) := by
  simp [VoxelPtr.add, add_assoc]

/-- Pointwise-equal functions give equal flatMaps. -/
theorem flatMap_congr {α β : Type} {l : List α} {f g : α → List β}
    (h : ∀ a ∈ l, f a = g a) : l.flatMap f = l.flatMap g := by
  induction l with
  | nil => rfl
  | cons a l ih =>
    simp only [List.flatMap_cons]
    rw [h a (by simp), ih (fun b hb => h b (by simp [hb]))]

/-- Pointwise-equal predicates give equal counts. -/
theorem countP_congr {α : Type} {l : List α} {p q : α → Bool}
    (h : ∀ a ∈ l, p a = q a) : l.countP p = l.countP q := by
  induction l with
  | nil => rfl
  | cons a l ih =>
    simp only [List.countP_cons, h a (by simp), ih (fun b hb => h b (by simp [hb]))]

/-- A map over a product-length range splits into an outer flatMap over the
first factor and an inner map over the second. -/
theorem map_range_mul {α : Type} (a b : Nat) (g : Nat → α) :
    (List.range (a*b)).map g =
      (List.range a).flatMap (fun p => (List.range b).map (fun q => g (p*b + q))) := by
  induction a with
  | zero => simp
  | succ a ih =>
    have h1 : (a+1)*b = a*b + b := by ring
    rw [h1, List.range_add, List.map_append, ih, List.range_succ, List.flatMap_append]
    simp [List.map_map, Function.comp_def]

/-- Extracting the low digit of a mixed-radix index. -/
theorem mds_mod (i x R : Nat) (hi : i < x) : (i + x * R) % x = i := by
  rw [Nat.add_mul_mod_self_left, Nat.mod_eq_of_lt hi]

/-- Removing the low digit of a mixed-radix index. -/
theorem mds_div (i x R : Nat) (hi : i < x) : (i + x * R) / x = R := by
  have hx : 0 < x := Nat.lt_of_le_of_lt (Nat.zero_le i) hi
  rw [Nat.add_mul_div_left _ _ hx, Nat.div_eq_of_lt hi, Nat.zero_add]

/-- Mixed-radix recomposition of an arbitrary index from its digits. -/
theorem nat_decomp (n x y z : Nat) :
    n % x + x * (n / x % y + y * (n / x / y % z + z * (n / x / y / z))) = n := by
  rw [Nat.mod_add_div, Nat.mod_add_div, Nat.mod_add_div]

/-- A mixed-radix index with bounded digits is bounded. -/
theorem mul_add_lt (b T r W : Nat) (hb : b < T) (hr : r < W) : b*W + r < T*W := by
  calc b*W + r < b*W + W := by omega
    _ = (b+1)*W := by ring
    _ ≤ T*W := Nat.mul_le_mul_right W hb

/-- Canonical form of the plain innermost x-loop: the m-th iteration invokes
the functor at column i+m with every cursor advanced by exactly m. -/
theorem xLoop_eq (n : Nat) : ∀ (i j k l : Nat) (p1 p2 p3 : VoxelPtr),
    xLoop n i j k l p1 p2 p3 =
      ⟨(List.range n).map (fun m =>
          .callCoord .inside (i + m) j k l (p1.add m) (p2.add m) (p3.add m)),
        p1.add n, p2.add n, p3.add n⟩ := by
  induction n with
  | zero =>
    intro i j k l p1 p2 p3
    simp [xLoop, VoxelPtr.add_zero]
  | succ n ih =>
    intro i j k l p1 p2 p3
    simp only [xLoop, ih, List.range_succ_eq_map, List.map_cons, List.map_map,
      LoopOut.mk.injEq]
    refine ⟨?_, ?_, ?_, ?_⟩
    · congr 1
      · simp [VoxelPtr.add_zero]
      · refine List.map_congr_left ?_
        intro m hm
        simp only [Function.comp_apply, TraceEvent.callCoord.injEq, VoxelPtr.add,
          VoxelPtr.mk.injEq]
        push_cast
        repeat' apply And.intro
        all_goals first | rfl | trivial | ring1 | omega
    all_goals
      simp only [VoxelPtr.add, VoxelPtr.mk.injEq]
      push_cast
      repeat' apply And.intro
      all_goals first | rfl | trivial | ring1 | omega

/-- Canonical form of the whole-domain j-loop: row r, column m invokes at
offset r*x + m from the loop's starting cursors. -/
theorem yLoopAttr_eq (rows : Nat) : ∀ (j k l x : Nat) (p1 p2 p3 : VoxelPtr),
    yLoopAttr rows j k l x p1 p2 p3 =
      ⟨(List.range rows).flatMap (fun r => (List.range x).map (fun m =>
          .callCoord .inside m (j + r) k l
            (p1.add (r*x + m)) (p2.add (r*x + m)) (p3.add (r*x + m)))),
        p1.add (rows*x), p2.add (rows*x), p3.add (rows*x)⟩ := by
  induction rows with
  | zero =>
    intro j k l x p1 p2 p3
    simp [yLoopAttr, VoxelPtr.add_zero]
  | succ rows ih =>
    intro j k l x p1 p2 p3
    simp only [yLoopAttr, xLoop_eq, ih, List.range_succ_eq_map, List.flatMap_cons,
      List.flatMap_map, LoopOut.mk.injEq]
    refine ⟨?_, ?_, ?_, ?_⟩
    · congr 1
      · refine List.map_congr_left ?_
        intro m hm
        simp only [TraceEvent.callCoord.injEq, VoxelPtr.add, VoxelPtr.mk.injEq]
        push_cast
        repeat' apply And.intro
        all_goals first | rfl | trivial | ring1 | omega
      · refine flatMap_congr ?_
        intro r hr
        refine List.map_congr_left ?_
        intro m hm
        simp only [Function.comp_apply, TraceEvent.callCoord.injEq, VoxelPtr.add,
          VoxelPtr.mk.injEq]
        push_cast
        repeat' apply And.intro
        all_goals first | rfl | trivial | ring1 | omega
    all_goals
      simp only [VoxelPtr.add, VoxelPtr.mk.injEq]
      push_cast
      repeat' apply And.intro
      all_goals first | rfl | trivial | ring1 | omega

/-- Canonical form of the whole-domain k-loop. -/
theorem zLoopAttr_eq (planes : Nat) : ∀ (k l y x : Nat) (p1 p2 p3 : VoxelPtr),
    zLoopAttr planes k l y x p1 p2 p3 =
      ⟨(List.range planes).flatMap (fun q => (List.range y).flatMap (fun r =>
          (List.range x).map (fun m =>
            .callCoord .inside m r (k + q) l
              (p1.add (q*(y*x) + (r*x + m))) (p2.add (q*(y*x) + (r*x + m)))
              (p3.add (q*(y*x) + (r*x + m)))))),
        p1.add (planes*(y*x)), p2.add (planes*(y*x)), p3.add (planes*(y*x))⟩ := by
  induction planes with
  | zero =>
    intro k l y x p1 p2 p3
    simp [zLoopAttr, VoxelPtr.add_zero]
  | succ planes ih =>
    intro k l y x p1 p2 p3
    simp only [zLoopAttr, yLoopAttr_eq, ih, List.range_succ_eq_map, List.flatMap_cons,
      List.flatMap_map, LoopOut.mk.injEq]
    refine ⟨?_, ?_, ?_, ?_⟩
    · congr 1
      · refine flatMap_congr ?_
        intro r hr
        refine List.map_congr_left ?_
        intro m hm
        simp only [TraceEvent.callCoord.injEq, VoxelPtr.add, VoxelPtr.mk.injEq]
        push_cast
        repeat' apply And.intro
        all_goals first | rfl | trivial | ring1 | omega
      · refine flatMap_congr ?_
        intro q hq
        refine flatMap_congr ?_
        intro r hr
        refine List.map_congr_left ?_
        intro m hm
        simp only [Function.comp_apply, TraceEvent.callCoord.injEq, VoxelPtr.add,
          VoxelPtr.mk.injEq]
        push_cast
        repeat' apply And.intro
        all_goals first | rfl | trivial | ring1 | omega
    all_goals
      simp only [VoxelPtr.add, VoxelPtr.mk.injEq]
      push_cast
      repeat' apply And.intro
      all_goals first | rfl | trivial | ring1 | omega

/-- Canonical form of the whole-domain l-loop. -/
theorem tLoopAttr_eq (ts : Nat) : ∀ (l z y x : Nat) (p1 p2 p3 : VoxelPtr),
    tLoopAttr ts l z y x p1 p2 p3 =
      ⟨(List.range ts).flatMap (fun lt => (List.range z).flatMap (fun q =>
          (List.range y).flatMap (fun r => (List.range x).map (fun m =>
            .callCoord .inside m r q (l + lt)
              (p1.add (lt*(z*(y*x)) + (q*(y*x) + (r*x + m))))
              (p2.add (lt*(z*(y*x)) + (q*(y*x) + (r*x + m))))
              (p3.add (lt*(z*(y*x)) + (q*(y*x) + (r*x + m)))))))),
        p1.add (ts*(z*(y*x))), p2.add (ts*(z*(y*x))), p3.add (ts*(z*(y*x)))⟩ := by
  induction ts with
  | zero =>
    intro l z y x p1 p2 p3
    simp [tLoopAttr, VoxelPtr.add_zero]
  | succ ts ih =>
    intro l z y x p1 p2 p3
    simp only [tLoopAttr, zLoopAttr_eq, ih, List.range_succ_eq_map, List.flatMap_cons,
      List.flatMap_map, LoopOut.mk.injEq]
    refine ⟨?_, ?_, ?_, ?_⟩
    · congr 1
      · refine flatMap_congr ?_
        intro q hq
        refine flatMap_congr ?_
        intro r hr
        refine List.map_congr_left ?_
        intro m hm
        simp only [TraceEvent.callCoord.injEq, VoxelPtr.add, VoxelPtr.mk.injEq]
        push_cast
        repeat' apply And.intro
        all_goals first | rfl | trivial | ring1 | omega
      · refine flatMap_congr ?_
        intro lt hlt
        refine flatMap_congr ?_
        intro q hq
        refine flatMap_congr ?_
        intro r hr
        refine List.map_congr_left ?_
        intro m hm
        simp only [Function.comp_apply, TraceEvent.callCoord.injEq, VoxelPtr.add,
          VoxelPtr.mk.injEq]
        push_cast
        repeat' apply And.intro
        all_goals first | rfl | trivial | ring1 | omega
    all_goals
      simp only [VoxelPtr.add, VoxelPtr.mk.injEq]
      push_cast
      repeat' apply And.intro
      all_goals first | rfl | trivial | ring1 | omega

/-- Canonical form of the plain linear-range loop: the m-th iteration uses the
alternate call form with image argument im3 at flat index idx+m, every cursor
advanced by exactly m. -/
theorem idxLoop_eq (im3 : irtkGenericImage) (n : Nat) :
    ∀ (idx : Nat) (p1 p2 p3 : VoxelPtr),
    idxLoop im3 n idx p1 p2 p3 =
      ⟨(List.range n).map (fun m =>
          .callIdx .inside im3 (idx + m) (p1.add m) (p2.add m) (p3.add m)),
        p1.add n, p2.add n, p3.add n⟩ := by
  induction n with
  | zero =>
    intro idx p1 p2 p3
    simp [idxLoop, VoxelPtr.add_zero]
  | succ n ih =>
    intro idx p1 p2 p3
    simp only [idxLoop, ih, List.range_succ_eq_map, List.map_cons, List.map_map,
      LoopOut.mk.injEq]
    refine ⟨?_, ?_, ?_, ?_⟩
    · congr 1
      · simp [VoxelPtr.add_zero]
      · refine List.map_congr_left ?_
        intro m hm
        simp only [Function.comp_apply, TraceEvent.callIdx.injEq, VoxelPtr.add,
          VoxelPtr.mk.injEq]
        push_cast
        repeat' apply And.intro
        all_goals first | rfl | trivial | ring1 | omega
    all_goals
      simp only [VoxelPtr.add, VoxelPtr.mk.injEq]
      push_cast
      repeat' apply And.intro
      all_goals first | rfl | trivial | ring1 | omega

/-- Canonical form of the strided j-loop of the 2-D/3-D range operators: row
r, column m invokes at columns bi+m, rows j+r, with every cursor advanced by
r*(cols + s1) + m from its start. -/
theorem yLoop_eq (bi cols k l : Nat) (s1 : Int) (rows : Nat) :
    ∀ (j : Nat) (p1 p2 p3 : VoxelPtr),
    yLoop bi cols k l s1 rows j p1 p2 p3 =
      ⟨(List.range rows).flatMap (fun r => (List.range cols).map (fun m =>
          .callCoord .inside (bi + m) (j + r) k l
            (p1.add (r*((cols : Int) + s1) + m)) (p2.add (r*((cols : Int) + s1) + m))
            (p3.add (r*((cols : Int) + s1) + m)))),
        p1.add (rows*((cols : Int) + s1)), p2.add (rows*((cols : Int) + s1)),
        p3.add (rows*((cols : Int) + s1))⟩ := by
  induction rows with
  | zero =>
    intro j p1 p2 p3
    simp [yLoop, VoxelPtr.add_zero]
  | succ rows ih =>
    intro j p1 p2 p3
    simp only [yLoop, xLoop_eq, ih, List.range_succ_eq_map, List.flatMap_cons,
      List.flatMap_map, LoopOut.mk.injEq]
    refine ⟨?_, ?_, ?_, ?_⟩
    · congr 1
      · refine List.map_congr_left ?_
        intro m hm
        simp only [TraceEvent.callCoord.injEq, VoxelPtr.add, VoxelPtr.mk.injEq]
        push_cast
        repeat' apply And.intro
        all_goals first | rfl | trivial | ring1 | omega
      · refine flatMap_congr ?_
        intro r hr
        refine List.map_congr_left ?_
        intro m hm
        simp only [Function.comp_apply, TraceEvent.callCoord.injEq, VoxelPtr.add,
          VoxelPtr.mk.injEq]
        push_cast
        repeat' apply And.intro
        all_goals first | rfl | trivial | ring1 | omega
    all_goals
      simp only [VoxelPtr.add, VoxelPtr.mk.injEq]
      push_cast
      repeat' apply And.intro
      all_goals first | rfl | trivial | ring1 | omega

/-- Canonical form of the strided k-loop of the 3-D range operator: page q,
row r, column m invokes with every cursor advanced by
q*(rows*(cols + s1) + s2) + (r*(cols + s1) + m) from its start. -/
theorem zLoop_eq (bi cols bj rows l : Nat) (s1 s2 : Int) (pages : Nat) :
    ∀ (k : Nat) (p1 p2 p3 : VoxelPtr),
    zLoop bi cols bj rows l s1 s2 pages k p1 p2 p3 =
      ⟨(List.range pages).flatMap (fun q => (List.range rows).flatMap (fun r =>
          (List.range cols).map (fun m =>
            .callCoord .inside (bi + m) (bj + r) (k + q) l
              (p1.add (q*((rows : Int)*((cols : Int) + s1) + s2) + (r*((cols : Int) + s1) + m)))
              (p2.add (q*((rows : Int)*((cols : Int) + s1) + s2) + (r*((cols : Int) + s1) + m)))
              (p3.add (q*((rows : Int)*((cols : Int) + s1) + s2) + (r*((cols : Int) + s1) + m)))))),
        p1.add (pages*((rows : Int)*((cols : Int) + s1) + s2)),
        p2.add (pages*((rows : Int)*((cols : Int) + s1) + s2)),
        p3.add (pages*((rows : Int)*((cols : Int) + s1) + s2))⟩ := by
  induction pages with
  | zero =>
    intro k p1 p2 p3
    simp [zLoop, VoxelPtr.add_zero]
  | succ pages ih =>
    intro k p1 p2 p3
    simp only [zLoop, yLoop_eq, ih, List.range_succ_eq_map, List.flatMap_cons,
      List.flatMap_map, LoopOut.mk.injEq]
    refine ⟨?_, ?_, ?_, ?_⟩
    · congr 1
      · refine flatMap_congr ?_
        intro r hr
        refine List.map_congr_left ?_
        intro m hm
        simp only [TraceEvent.callCoord.injEq, VoxelPtr.add, VoxelPtr.mk.injEq]
        push_cast
        repeat' apply And.intro
        all_goals first | rfl | trivial | ring1 | omega
      · refine flatMap_congr ?_
        intro q hq
        refine flatMap_congr ?_
        intro r hr
        refine List.map_congr_left ?_
        intro m hm
        simp only [Function.comp_apply, TraceEvent.callCoord.injEq, VoxelPtr.add,
          VoxelPtr.mk.injEq]
        push_cast
        repeat' apply And.intro
        all_goals first | rfl | trivial | ring1 | omega
    all_goals
      simp only [VoxelPtr.add, VoxelPtr.mk.injEq]
      push_cast
      repeat' apply And.intro
      all_goals first | rfl | trivial | ring1 | omega

/-- The predicated x-loop is the plain x-loop with each event retagged by the
predicate, and identical cursor stepping. -/
theorem xLoopIf_retag (dom : ImageDomain) (im3 : irtkGenericImage) (n : Nat) :
    ∀ (i j k l : Nat) (p1 p2 p3 : VoxelPtr),
    xLoopIf dom im3 n i j k l p1 p2 p3 =
      ⟨(xLoop n i j k l p1 p2 p3).trace.map (retag dom im3),
        (xLoop n i j k l p1 p2 p3).q1, (xLoop n i j k l p1 p2 p3).q2,
        (xLoop n i j k l p1 p2 p3).q3⟩ := by
  induction n with
  | zero =>
    intro i j k l p1 p2 p3
    simp [xLoopIf, xLoop]
  | succ n ih =>
    intro i j k l p1 p2 p3
    simp [xLoopIf, xLoop, ih, retag]

/-- The predicated whole-domain j-loop is the plain one retagged. -/
theorem yLoopAttrIf_retag (dom : ImageDomain) (im3 : irtkGenericImage) (rows : Nat) :
    ∀ (j k l x : Nat) (p1 p2 p3 : VoxelPtr),
    yLoopAttrIf dom im3 rows j k l x p1 p2 p3 =
      ⟨(yLoopAttr rows j k l x p1 p2 p3).trace.map (retag dom im3),
        (yLoopAttr rows j k l x p1 p2 p3).q1, (yLoopAttr rows j k l x p1 p2 p3).q2,
        (yLoopAttr rows j k l x p1 p2 p3).q3⟩ := by
  induction rows with
  | zero =>
    intro j k l x p1 p2 p3
    simp [yLoopAttrIf, yLoopAttr]
  | succ rows ih =>
    intro j k l x p1 p2 p3
    simp [yLoopAttrIf, yLoopAttr, ih, xLoopIf_retag]

/-- The predicated whole-domain k-loop is the plain one retagged. -/
theorem zLoopAttrIf_retag (dom : ImageDomain) (im3 : irtkGenericImage) (planes : Nat) :
    ∀ (k l y x : Nat) (p1 p2 p3 : VoxelPtr),
    zLoopAttrIf dom im3 planes k l y x p1 p2 p3 =
      ⟨(zLoopAttr planes k l y x p1 p2 p3).trace.map (retag dom im3),
        (zLoopAttr planes k l y x p1 p2 p3).q1, (zLoopAttr planes k l y x p1 p2 p3).q2,
        (zLoopAttr planes k l y x p1 p2 p3).q3⟩ := by
  induction planes with
  | zero =>
    intro k l y x p1 p2 p3
    simp [zLoopAttrIf, zLoopAttr]
  | succ planes ih =>
    intro k l y x p1 p2 p3
    simp [zLoopAttrIf, zLoopAttr, ih, yLoopAttrIf_retag]

/-- The predicated whole-domain l-loop is the plain one retagged. -/
theorem tLoopAttrIf_retag (dom : ImageDomain) (im3 : irtkGenericImage) (ts : Nat) :
    ∀ (l z y x : Nat) (p1 p2 p3 : VoxelPtr),
    tLoopAttrIf dom im3 ts l z y x p1 p2 p3 =
      ⟨(tLoopAttr ts l z y x p1 p2 p3).trace.map (retag dom im3),
        (tLoopAttr ts l z y x p1 p2 p3).q1, (tLoopAttr ts l z y x p1 p2 p3).q2,
        (tLoopAttr ts l z y x p1 p2 p3).q3⟩ := by
  induction ts with
  | zero =>
    intro l z y x p1 p2 p3
    simp [tLoopAttrIf, tLoopAttr]
  | succ ts ih =>
    intro l z y x p1 p2 p3
    simp [tLoopAttrIf, tLoopAttr, ih, zLoopAttrIf_retag]

/-- The predicated linear-range loop is the plain one retagged (with the
flat-index form of the predicate). -/
theorem idxLoopIf_retag (dom : ImageDomain) (im3 : irtkGenericImage) (n : Nat) :
    ∀ (idx : Nat) (p1 p2 p3 : VoxelPtr),
    idxLoopIf dom im3 n idx p1 p2 p3 =
      ⟨(idxLoop im3 n idx p1 p2 p3).trace.map (retag dom im3),
        (idxLoop im3 n idx p1 p2 p3).q1, (idxLoop im3 n idx p1 p2 p3).q2,
        (idxLoop im3 n idx p1 p2 p3).q3⟩ := by
  induction n with
  | zero =>
    intro idx p1 p2 p3
    simp [idxLoopIf, idxLoop]
  | succ n ih =>
    intro idx p1 p2 p3
    simp [idxLoopIf, idxLoop, ih, retag]

/-- The predicated strided j-loop is the plain one retagged. -/
theorem yLoopIf_retag (dom : ImageDomain) (im3 : irtkGenericImage)
    (bi cols k l : Nat) (s1 : Int) (rows : Nat) :
    ∀ (j : Nat) (p1 p2 p3 : VoxelPtr),
    yLoopIf dom im3 bi cols k l s1 rows j p1 p2 p3 =
      ⟨(yLoop bi cols k l s1 rows j p1 p2 p3).trace.map (retag dom im3),
        (yLoop bi cols k l s1 rows j p1 p2 p3).q1,
        (yLoop bi cols k l s1 rows j p1 p2 p3).q2,
        (yLoop bi cols k l s1 rows j p1 p2 p3).q3⟩ := by
  induction rows with
  | zero =>
    intro j p1 p2 p3
    simp [yLoopIf, yLoop]
  | succ rows ih =>
    intro j p1 p2 p3
    simp [yLoopIf, yLoop, ih, xLoopIf_retag]

/-- The predicated strided k-loop is the plain one retagged. -/
theorem zLoopIf_retag (dom : ImageDomain) (im3 : irtkGenericImage)
    (bi cols bj rows l : Nat) (s1 s2 : Int) (pages : Nat) :
    ∀ (k : Nat) (p1 p2 p3 : VoxelPtr),
    zLoopIf dom im3 bi cols bj rows l s1 s2 pages k p1 p2 p3 =
      ⟨(zLoop bi cols bj rows l s1 s2 pages k p1 p2 p3).trace.map (retag dom im3),
        (zLoop bi cols bj rows l s1 s2 pages k p1 p2 p3).q1,
        (zLoop bi cols bj rows l s1 s2 pages k p1 p2 p3).q2,
        (zLoop bi cols bj rows l s1 s2 pages k p1 p2 p3).q3⟩ := by
  induction pages with
  | zero =>
    intro k p1 p2 p3
    simp [zLoopIf, zLoop]
  | succ pages ih =>
    intro k p1 p2 p3
    simp [zLoopIf, zLoop, ih, yLoopIf_retag]

/-- The predicated whole-domain traversal is the plain whole-domain traversal
with each invocation dispatched by the predicate on im3 and the third cursor,
with identical arguments and identical cursor advancement. -/
theorem runIfAttr_retag (dom : ImageDomain) (im1 im2 im3 : irtkGenericImage)
    (attr : irtkImageAttributes) :
    runIfAttr dom im1 im2 im3 attr = (runAttr im1 im2 im3 attr).map (retag dom im3) := by
  simp [runIfAttr, runAttr, tLoopAttrIf_retag]

/-- The predicated linear-range traversal is the plain one retagged. -/
theorem runIfRange1_retag (dom : ImageDomain) (im1 im2 im3 : irtkGenericImage)
    (b e : Nat) :
    runIfRange1 dom im1 im2 im3 b e = (runRange1 im1 im2 im3 b e).map (retag dom im3) := by
  simp [runIfRange1, runRange1, idxLoopIf_retag]

/-- The predicated 3-D range traversal is the plain one retagged. -/
theorem runIfRange3_retag (dom : ImageDomain) (im1 im2 im3 : irtkGenericImage)
    (bi ei bj ej bk ek l : Nat) :
    runIfRange3 dom im1 im2 im3 bi ei bj ej bk ek l
      = (runRange3 im1 im2 im3 bi ei bj ej bk ek l).map (retag dom im3) := by
  simp [runIfRange3, runRange3, zLoopIf_retag]

/-- Flat canonical form of the whole-domain traversal: the trace is exactly
the enumeration n = 0, ..., attrN-1 where the n-th invocation carries the
mixed-radix digits of n as coordinates (x fastest, t slowest) and every
cursor advanced by exactly n voxels. -/
theorem runAttr_flat (im1 im2 im3 : irtkGenericImage) (attr : irtkImageAttributes) :
    runAttr im1 im2 im3 attr = (List.range (attrN attr)).map (gAttr im1 im2 im3 attr) := by
  rw [runAttr, tLoopAttr_eq]
  simp only [attrN, map_range_mul]
  refine flatMap_congr ?_
  intro lt hlt
  refine flatMap_congr ?_
  intro q hq
  refine flatMap_congr ?_
  intro r hr
  refine List.map_congr_left ?_
  intro m hm
  simp only [List.mem_range] at hlt hq hr hm
  simp only [gAttr]
  have hn : lt*(attr.z*(attr.y*attr.x)) + (q*(attr.y*attr.x) + (r*attr.x + m))
      = m + attr.x*(r + attr.y*(q + attr.z*lt)) := by ring
  rw [hn, mds_mod _ _ _ hm, mds_div _ _ _ hm, mds_mod _ _ _ hr, mds_div _ _ _ hr,
    mds_mod _ _ _ hq, mds_div _ _ _ hq]
  simp only [TraceEvent.callCoord.injEq, Nat.zero_add]
  repeat' apply And.intro
  all_goals first | rfl | trivial | (congr 1; push_cast; ring1)

/-- Canonical form of the linear-range traversal: the m-th invocation uses
the alternate call form with image argument im3 at flat index b+m and every
cursor advanced by exactly m from its start. -/
theorem runRange1_eq (im1 im2 im3 : irtkGenericImage) (b e : Nat) :
    runRange1 im1 im2 im3 b e = (List.range (e - b)).map (fun m =>
      .callIdx .inside im3 (b + m)
        ((startPtrB im1 b).add m) ((startPtrB im2 b).add m) ((startPtrB im3 b).add m)) := by
  rw [runRange1, idxLoop_eq]

/-- Counting a predicate over a flatMap sums the counts per element. -/
theorem countP_flatMap {α β : Type} (l : List α) (f : α → List β) (p : β → Bool) :
    (l.flatMap f).countP p = (l.map (fun a => (f a).countP p)).sum := by
  induction l with
  | nil => rfl
  | cons a l ih => simp [List.flatMap_cons, List.countP_append, ih]

/-- Every event of a linear-range traversal is a functor invocation, so the
invocation count is the range length. -/
theorem countCalls_runRange1 (im1 im2 im3 : irtkGenericImage) (b e : Nat) :
    countCalls (runRange1 im1 im2 im3 b e) = e - b := by
  rw [countCalls, runRange1_eq, List.countP_map]
  have hf : (TraceEvent.isCall ∘ fun m =>
      TraceEvent.callIdx FSlot.inside im3 (b + m) ((startPtrB im1 b).add m)
        ((startPtrB im2 b).add m) ((startPtrB im3 b).add m)) = fun _ => true := by
    funext m
    rfl
  rw [hf]
  simp

/-- A linear-range traversal performs no joins. -/
theorem countJoins_runRange1 (im1 im2 im3 : irtkGenericImage) (b e : Nat) :
    countJoins (runRange1 im1 im2 im3 b e) = 0 := by
  rw [countJoins, runRange1_eq, List.countP_map]
  have hf : (TraceEvent.isJoin ∘ fun m =>
      TraceEvent.callIdx FSlot.inside im3 (b + m) ((startPtrB im1 b).add m)
        ((startPtrB im2 b).add m) ((startPtrB im3 b).add m)) = fun _ => false := by
    funext m
    rfl
  rw [hf]
  simp

/-- Every event of a whole-domain traversal is a functor invocation, so the
invocation count is attrN. -/
theorem countCalls_runAttr (im1 im2 im3 : irtkGenericImage) (attr : irtkImageAttributes) :
    countCalls (runAttr im1 im2 im3 attr) = attrN attr := by
  rw [countCalls, runAttr_flat, List.countP_map]
  have hf : (TraceEvent.isCall ∘ gAttr im1 im2 im3 attr) = fun _ => true := by
    funext m
    rfl
  rw [hf]
  simp

/-- A valid scheduler partition of [b, e) has sub-range lengths summing to
e - b. -/
theorem chain_sum (parts : List (Nat × Nat)) : ∀ b e : Nat, chainFrom b e parts = true →
    (parts.map (fun r => r.2 - r.1)).sum = e - b ∧ b ≤ e := by
  induction parts with
  | nil =>
    intro b e h
    simp only [chainFrom, beq_iff_eq] at h
    simp [h]
  | cons a rest ih =>
    intro b e h
    obtain ⟨lo, hi⟩ := a
    simp only [chainFrom, Bool.and_eq_true, beq_iff_eq, decide_eq_true_eq] at h
    obtain ⟨⟨hb, hlh⟩, hc⟩ := h
    obtain ⟨hs, hle⟩ := ih hi e hc
    subst hb
    simp only [List.map_cons, List.sum_cons, hs]
    omega

/-- A parallel-for (or the partition part of a parallel-reduce) of
linear-range bodies is the concatenation of the per-partition traces. -/
theorem parallel_for_flatMap (parts : List (Nat × Nat)) (run : Nat → Nat → List TraceEvent) :
    parallel_for parts run = parts.flatMap (fun r => run r.1 r.2) := by
  simp [parallel_for, List.flatMap_def]

/-- Invocation count of a parallel-for of linear-range bodies over a valid
partition: exactly one invocation per flat index of the submitted range. -/
theorem countCalls_parallel_for_range1 (im1 im2 im3 : irtkGenericImage)
    (parts : List (Nat × Nat)) (b e : Nat) (h : chainFrom b e parts = true) :
    countCalls (parallel_for parts (fun b2 e2 => runRange1 im1 im2 im3 b2 e2)) = e - b := by
  rw [parallel_for_flatMap, countCalls, countP_flatMap]
  have h2 : parts.map (fun a => (runRange1 im1 im2 im3 a.1 a.2).countP TraceEvent.isCall)
      = parts.map (fun r => r.2 - r.1) := by
    refine List.map_congr_left ?_
    intro a ha
    exact countCalls_runRange1 im1 im2 im3 a.1 a.2
  rw [h2]
  exact (chain_sum parts b e h).1

/-- Join count of a parallel-for of linear-range bodies: none at all. -/
theorem countJoins_parallel_for_range1 (im1 im2 im3 : irtkGenericImage)
    (parts : List (Nat × Nat)) :
    countJoins (parallel_for parts (fun b2 e2 => runRange1 im1 im2 im3 b2 e2)) = 0 := by
  rw [parallel_for_flatMap, countJoins, countP_flatMap]
  have h2 : parts.map (fun a => (runRange1 im1 im2 im3 a.1 a.2).countP TraceEvent.isJoin)
      = parts.map (fun _ => 0) := by
    refine List.map_congr_left ?_
    intro a ha
    exact countJoins_runRange1 im1 im2 im3 a.1 a.2
  rw [h2]
  simp

/-- Join count of a parallel-reduce of linear-range bodies whose body join
emits one join event: one join per pair of sibling partitions. -/
theorem countJoins_parallel_reduce_range1 (im1 im2 im3 : irtkGenericImage)
    (parts : List (Nat × Nat)) (s : FSlot) :
    countJoins (parallel_reduce parts (fun b2 e2 => runRange1 im1 im2 im3 b2 e2)
      [.joinEv s]) = parts.length - 1 := by
  rw [parallel_reduce, countJoins, List.countP_append]
  have h1 : ((parts.map (fun r => runRange1 im1 im2 im3 r.1 r.2)).flatten).countP
      TraceEvent.isJoin = 0 := by
    have := countJoins_parallel_for_range1 im1 im2 im3 parts
    rw [countJoins, parallel_for] at this
    exact this
  rw [h1, countP_flatMap]
  have h2 : (List.range (parts.length - 1)).map
      (fun _ => ([TraceEvent.joinEv s] : List TraceEvent).countP TraceEvent.isJoin)
      = (List.range (parts.length - 1)).map (fun _ => 1) := by
    refine List.map_congr_left ?_
    intro a ha
    simp [TraceEvent.isJoin]
  rw [h2]
  simp [List.map_const]

/-- A low digit below its radix keeps a mixed-radix value below the radix
times the bound on the high part. -/
theorem add_mul_lt (a x b B : Nat) (ha : a < x) (hb : b < B) : a + x*b < x*B := by
  calc a + x*b < x + x*b := by omega
    _ = x*(b+1) := by ring
    _ ≤ x*B := Nat.mul_le_mul (le_refl x) hb

/-- The whole-domain traversal invokes the functor exactly once at each
in-bounds coordinate (i, j, k, l). -/
theorem runAttr_coord_count (im1 im2 im3 : irtkGenericImage) (attr : irtkImageAttributes)
    (i j k l : Nat) (hi : i < attr.x) (hj : j < attr.y) (hk : k < attr.z)
    (hl : l < effT attr) :
    (runAttr im1 im2 im3 attr).countP
      (fun ev => ev.coordsOf == some (i, j, k, l)) = 1 := by
  have c1 : (i + attr.x*(j + attr.y*(k + attr.z*l))) % attr.x = i := mds_mod _ _ _ hi
  have d1 : (i + attr.x*(j + attr.y*(k + attr.z*l))) / attr.x
      = j + attr.y*(k + attr.z*l) := mds_div _ _ _ hi
  have c2 : (j + attr.y*(k + attr.z*l)) % attr.y = j := mds_mod _ _ _ hj
  have d2 : (j + attr.y*(k + attr.z*l)) / attr.y = k + attr.z*l := mds_div _ _ _ hj
  have c3 : (k + attr.z*l) % attr.z = k := mds_mod _ _ _ hk
  have d3 : (k + attr.z*l) / attr.z = l := mds_div _ _ _ hk
  have key : ∀ n : Nat,
      ((gAttr im1 im2 im3 attr n).coordsOf == some (i, j, k, l))
        = (n == i + attr.x*(j + attr.y*(k + attr.z*l))) := by
    intro n
    simp only [gAttr, TraceEvent.coordsOf]
    refine Bool.eq_iff_iff.mpr ?_
    simp only [beq_iff_eq, Option.some.injEq, Prod.mk.injEq]
    constructor
    · rintro ⟨h1, h2, h3, h4⟩
      have hd := nat_decomp n attr.x attr.y attr.z
      rw [h1, h2, h3, h4] at hd
      exact hd.symm
    · intro hn
      subst hn
      rw [c1, d1, c2, d2, c3, d3]
      exact ⟨rfl, rfl, rfl, rfl⟩
  rw [runAttr_flat, List.countP_map]
  have hfq : ((fun ev => TraceEvent.coordsOf ev == some (i, j, k, l))
      ∘ gAttr im1 im2 im3 attr)
      = fun n => n == i + attr.x*(j + attr.y*(k + attr.z*l)) := by
    funext n
    exact key n
  rw [hfq]
  have hcount : (List.range (attrN attr)).countP
      (fun n => n == i + attr.x*(j + attr.y*(k + attr.z*l)))
      = (List.range (attrN attr)).count (i + attr.x*(j + attr.y*(k + attr.z*l))) := rfl
  rw [hcount]
  have hflat : i + attr.x*(j + attr.y*(k + attr.z*l)) < attrN attr := by
    have h1 : k + attr.z*l < attr.z * effT attr := add_mul_lt k attr.z l (effT attr) hk hl
    have h2 : j + attr.y*(k + attr.z*l) < attr.y*(attr.z*effT attr) :=
      add_mul_lt j attr.y _ _ hj h1
    have h3 : i + attr.x*(j + attr.y*(k + attr.z*l))
        < attr.x*(attr.y*(attr.z*effT attr)) := add_mul_lt i attr.x _ _ hi h2
    have h4 : attr.x*(attr.y*(attr.z*effT attr)) = attrN attr := by
      rw [attrN]
      ring
    omega
  exact List.count_eq_one_of_mem (List.nodup_range _) (List.mem_range.mpr hflat)

/-- Invocation count of a parallel-reduce of linear-range bodies over a valid
partition: the sibling joins add no invocations, so again exactly one
invocation per flat index of the submitted range. -/
theorem countCalls_parallel_reduce_range1 (im1 im2 im3 : irtkGenericImage)
    (parts : List (Nat × Nat)) (b e : Nat) (s : FSlot)
    (h : chainFrom b e parts = true) :
    countCalls (parallel_reduce parts (fun b2 e2 => runRange1 im1 im2 im3 b2 e2)
      [.joinEv s]) = e - b := by
  rw [parallel_reduce, countCalls, List.countP_append]
  have h1 := countCalls_parallel_for_range1 im1 im2 im3 parts b e h
  rw [countCalls, parallel_for] at h1
  rw [h1, countP_flatMap]
  have h2 : (List.range (parts.length - 1)).map
      (fun _ => ([TraceEvent.joinEv s] : List TraceEvent).countP TraceEvent.isCall)
      = (List.range (parts.length - 1)).map (fun _ => 0) := by
    refine List.map_congr_left ?_
    intro a ha
    simp [TraceEvent.isCall]
  rw [h2]
  simp [List.map_const]

/-- C2: the rangeless whole-domain traversal body invokes the 4-coordinate
call form exactly once per coordinate (i, j, k, l) with 0 ≤ i < sizeX,
0 ≤ j < sizeY, 0 ≤ k < sizeZ, 0 ≤ l < effectiveT, where effectiveT is sizeT
for a genuine time series (nonzero dt) and 1 otherwise; iteration is ordered
t outermost, then z, y, x innermost (the n-th invocation carries the
mixed-radix digits of n, x fastest), and every image cursor advances by
exactly one voxel per invocation (the n-th invocation sees every cursor
advanced by exactly n), so no voxel is skipped or visited twice. -/
theorem runAttr_full_coverage (im1 im2 im3 : irtkGenericImage)
    (attr : irtkImageAttributes) (i j k l : Nat) (hi : i < attr.x) (hj : j < attr.y)
    (hk : k < attr.z) (hl : l < effT attr) :
    runAttr im1 im2 im3 attr = (List.range (attrN attr)).map (gAttr im1 im2 im3 attr)
    ∧ (runAttr im1 im2 im3 attr).countP
        (fun ev => ev.coordsOf == some (i, j, k, l)) = 1 :=
  ⟨runAttr_flat im1 im2 im3 attr, runAttr_coord_count im1 im2 im3 attr i j k l hi hj hk hl⟩

/-- Witness for C2 at a concrete 2x1x1x1 time-series domain and the
coordinate (1, 0, 0, 0). -/
theorem runAttr_full_coverage_witness :
    (runAttr ⟨⟨2,1,1,1,1⟩,1⟩ ⟨⟨2,1,1,1,1⟩,1⟩ ⟨⟨2,1,1,1,1⟩,1⟩ ⟨2,1,1,1,1⟩).countP
      (fun ev => ev.coordsOf == some (1, 0, 0, 0)) = 1 :=
  (runAttr_full_coverage ⟨⟨2,1,1,1,1⟩,1⟩ ⟨⟨2,1,1,1,1⟩,1⟩ ⟨⟨2,1,1,1,1⟩,1⟩ ⟨2,1,1,1,1⟩
    1 0 0 0 (by decide) (by decide) (by decide) (by decide)).2

/-- C6: in the predicated traversals (whole-domain and 3-D range), each
visited voxel first evaluates the domain predicate against the third (last)
image and its current cursor; if it holds the inside functor is invoked,
otherwise the outside functor, with identical coordinate and pointer
arguments, and all cursors advance exactly as in the plain traversal (the
predicated trace is the plain trace with each event retagged by the
predicate). -/
theorem ifBody_predicate_routing (dom : ImageDomain) (im1 im2 im3 : irtkGenericImage)
    (attr : irtkImageAttributes) (bi ei bj ej bk ek l : Nat) :
    runIfAttr dom im1 im2 im3 attr = (runAttr im1 im2 im3 attr).map (retag dom im3)
    ∧ runIfRange3 dom im1 im2 im3 bi ei bj ej bk ek l
        = (runRange3 im1 im2 im3 bi ei bj ej bk ek l).map (retag dom im3) :=
  ⟨runIfAttr_retag dom im1 im2 im3 attr,
    runIfRange3_retag dom im1 im2 im3 bi ei bj ej bk ek l⟩

/-- Counterexample to C9 as stated: on the domain with sizeT = 0 but nonzero
temporal spacing (dt = 1) and a single spatial voxel, the whole-domain
traversal invokes the functor zero times, not once per spatial voxel. -/
theorem sizeT_zero_ce :
    countCalls (runAttr ⟨⟨1,1,1,0,1⟩,1⟩ ⟨⟨1,1,1,0,1⟩,1⟩ ⟨⟨1,1,1,0,1⟩,1⟩ ⟨1,1,1,0,1⟩) = 0
    ∧ (1:Nat)*1*1 = 1 := by
  constructor
  · decide
  · decide

/-- C9 amended: the whole-domain traversal performs
(dt nonzero ? sizeT : 1) temporal iterations — sizeT = 0 is treated as one
iteration only when the temporal spacing is zero; with nonzero spacing and
sizeT = 0 the functor is invoked zero times. -/
theorem attr_temporal_iterations (im1 im2 im3 : irtkGenericImage)
    (attr : irtkImageAttributes) :
    countCalls (runAttr im1 im2 im3 attr)
      = (if attr.dt ≠ 0 then attr.t else 1) * (attr.z * (attr.y * attr.x)) := by
  rw [countCalls_runAttr]
  rfl

/-- C10: every invocation of the linear-range traversal (plain or predicated)
uses the alternate (image, flatIndex, pointers) call form with the third
image as its image argument, visiting flat indices b, b+1, ..., e-1 in
strictly increasing order with every cursor advanced by one element per step;
the predicated variant is the plain one with each event dispatched by the
flat-index predicate on the third image; the sequential ForEachScalar entry
is exactly this body over [0, GetNumberOfVoxels) followed by the final join. -/
theorem range1_image_and_order (im1 im2 im3 : irtkGenericImage) (b e : Nat)
    (dom : ImageDomain) :
    runRange1 im1 im2 im3 b e = (List.range (e - b)).map (fun m =>
        .callIdx .inside im3 (b + m) ((startPtrB im1 b).add m)
          ((startPtrB im2 b).add m) ((startPtrB im3 b).add m))
    ∧ runIfRange1 dom im1 im2 im3 b e
        = (runRange1 im1 im2 im3 b e).map (retag dom im3)
    ∧ ForEachScalar_ref im1 im2 im3 false
        = runRange1 im1 im2 im3 0 (GetNumberOfVoxels im3) ++ [.joinEv .inside] :=
  ⟨runRange1_eq im1 im2 im3 b e, runIfRange1_retag dom im1 im2 im3 b e, rfl⟩

/-- C3: with a nonzero temporal spacing on the primary image, the rangeless
ParallelForEachVoxelIf never terminates — the image-by-reference overload
calls itself unconditionally and the by-pointer overload delegates into it —
so for every fuel bound no result (and no functor invocation) is produced. -/
theorem parallelForEachVoxelIf_noRange_diverges (dom : ImageDomain)
    (parts : List (Nat × Nat)) (fuel : Nat) (im1 im2 im3 : irtkGenericImage)
    (vfIsRed ofIsRed : Bool) (h : GetTSize im3 ≠ 0) :
    ParallelForEachVoxelIf_ref_noRange dom parts fuel im1 im2 im3 vfIsRed ofIsRed = none
    ∧ ParallelForEachVoxelIf_ptr_noRange dom parts fuel im1 im2 im3 vfIsRed ofIsRed
        = none := by
  have href : ∀ f : Nat,
      ParallelForEachVoxelIf_ref_noRange dom parts f im1 im2 im3 vfIsRed ofIsRed
        = none := by
    intro f
    induction f with
    | zero => rfl
    | succ n ih =>
      rw [ParallelForEachVoxelIf_ref_noRange, if_pos h]
      exact ih
  refine ⟨href fuel, ?_⟩
  rw [ParallelForEachVoxelIf_ptr_noRange, if_pos h]
  exact href fuel

/-- Witness for C3 at a concrete 1x1x1x1 time-series image (dt = 1), the
always-true domain, one partition and fuel 5. -/
theorem parallelForEachVoxelIf_noRange_diverges_witness :
    ParallelForEachVoxelIf_ref_noRange ⟨fun _ _ _ _ _ _ => true, fun _ _ _ => true⟩
      [(0,1)] 5 ⟨⟨1,1,1,1,1⟩,1⟩ ⟨⟨1,1,1,1,1⟩,1⟩ ⟨⟨1,1,1,1,1⟩,1⟩ false false = none
    ∧ ParallelForEachVoxelIf_ptr_noRange ⟨fun _ _ _ _ _ _ => true, fun _ _ _ => true⟩
      [(0,1)] 5 ⟨⟨1,1,1,1,1⟩,1⟩ ⟨⟨1,1,1,1,1⟩,1⟩ ⟨⟨1,1,1,1,1⟩,1⟩ false false = none :=
  parallelForEachVoxelIf_noRange_diverges ⟨fun _ _ _ _ _ _ => true, fun _ _ _ => true⟩
    [(0,1)] 5 ⟨⟨1,1,1,1,1⟩,1⟩ ⟨⟨1,1,1,1,1⟩,1⟩ ⟨⟨1,1,1,1,1⟩,1⟩ false false (by decide)

/-- Counterexample to C5 as stated: the sequential ForEachScalar entry calls
vf.join(body._VoxelFunc) unconditionally, so even with a non-reduction
functor (IsReduction() = false) the traversal performs one join. -/
theorem forEachScalar_join_nonreduction_ce :
    countJoins (ForEachScalar_ref ⟨⟨1,1,1,1,1⟩,1⟩ ⟨⟨1,1,1,1,1⟩,1⟩ ⟨⟨1,1,1,1,1⟩,1⟩ false)
      = 1 := by
  decide

/-- C5 amended: in the parallel traversal the engine invokes join only when
IsReduction() is true — one join per pair of sibling partitions plus the
final join of the merged partial into the caller's functor, parts.length in
total — and never for a non-reduction functor; the sequential entry instead
always performs exactly one join at the end (merging the body's functor copy
back into the caller's functor), regardless of IsReduction(). -/
theorem join_policy_amended (parts : List (Nat × Nat)) (im1 im2 im3 : irtkGenericImage)
    (vfIsRed : Bool) (h : parts ≠ []) :
    countJoins (ParallelForEachScalar_ref parts im1 im2 im3 vfIsRed)
        = (if vfIsRed then parts.length else 0)
    ∧ countJoins (ForEachScalar_ref im1 im2 im3 vfIsRed) = 1 := by
  have hl : 1 ≤ parts.length := by
    cases parts with
    | nil => exact absurd rfl h
    | cons a r => simp
  constructor
  · rw [ParallelForEachScalar_ref]
    by_cases hv : vfIsRed = true
    · rw [if_pos hv, if_pos hv, countJoins, List.countP_append]
      have h1 := countJoins_parallel_reduce_range1 im1 im2 im3 parts FSlot.inside
      rw [countJoins] at h1
      rw [h1]
      have h2 : ([TraceEvent.joinEv FSlot.inside] : List TraceEvent).countP
          TraceEvent.isJoin = 1 := by decide
      rw [h2]
      omega
    · have hv2 : vfIsRed = false := by
        cases vfIsRed with
        | true => exact absurd rfl hv
        | false => rfl
      rw [hv2, if_neg (by decide), if_neg (by decide)]
      exact countJoins_parallel_for_range1 im1 im2 im3 parts
  · rw [ForEachScalar_ref, countJoins, List.countP_append]
    have h1 := countJoins_runRange1 im1 im2 im3 0 (GetNumberOfVoxels im3)
    rw [countJoins] at h1
    rw [h1]
    decide

/-- Witness for C5 amended at a concrete image, a two-partition schedule and
a reduction functor. -/
theorem join_policy_amended_witness :
    countJoins (ParallelForEachScalar_ref [(0,1),(1,2)] ⟨⟨2,1,1,1,1⟩,1⟩ ⟨⟨2,1,1,1,1⟩,1⟩
        ⟨⟨2,1,1,1,1⟩,1⟩ true)
        = (if true then ([(0,1),(1,2)] : List (Nat × Nat)).length else 0)
    ∧ countJoins (ForEachScalar_ref ⟨⟨2,1,1,1,1⟩,1⟩ ⟨⟨2,1,1,1,1⟩,1⟩ ⟨⟨2,1,1,1,1⟩,1⟩ true)
        = 1 :=
  join_policy_amended [(0,1),(1,2)] ⟨⟨2,1,1,1,1⟩,1⟩ ⟨⟨2,1,1,1,1⟩,1⟩ ⟨⟨2,1,1,1,1⟩,1⟩
    true (by decide)

/-- Counterexample to C8 as stated: with an empty first image, a linear-range
traversal of two voxels passes a null first-image pointer only at the first
invocation; at the second the once-null cursor has been advanced and is no
longer null. -/
theorem empty_image_null_ce :
    (runRange1 ⟨⟨0,1,1,1,1⟩,3⟩ ⟨⟨2,1,1,1,1⟩,1⟩ ⟨⟨2,1,1,1,1⟩,1⟩ 0 2).map
      (fun ev => (TraceEvent.p1Of ev).map VoxelPtr.isNullB) = [some true, some false] := by
  decide

/-- C8 amended: for a participating image that reports empty, the buffer
pointer is never fetched — the cursor starts as the C NULL pointer (address
0, base 0) — but the null cursor is advanced one element per invocation like
every other cursor, so in both the whole-domain and linear-range traversals
the n-th invocation receives address n in that slot: null exactly at the
first-visited position and a non-null invalid address afterwards, while the
image's buffer is never read or offset (the base stays 0 throughout). -/
theorem empty_image_cursor_amended (im1 im2 im3 : irtkGenericImage)
    (attr : irtkImageAttributes) (b e : Nat) (h : isEmptyIm im1 = true) :
    (runAttr im1 im2 im3 attr).map TraceEvent.p1Of
      = (List.range (attrN attr)).map (fun (n : Nat) => some (VoxelPtr.mk 0 (n : Int)))
    ∧ (runRange1 im1 im2 im3 b e).map TraceEvent.p1Of
      = (List.range (e - b)).map (fun (n : Nat) => some (VoxelPtr.mk 0 (n : Int))) := by
  constructor
  · rw [runAttr_flat, List.map_map]
    refine List.map_congr_left ?_
    intro n hn
    simp [gAttr, TraceEvent.p1Of, startPtr, h, nullPtr, VoxelPtr.add]
  · rw [runRange1_eq, List.map_map]
    refine List.map_congr_left ?_
    intro n hn
    simp [TraceEvent.p1Of, startPtrB, h, nullPtr, VoxelPtr.add]

/-- Witness for C8 amended with a concrete empty first image over a
two-voxel linear range. -/
theorem empty_image_cursor_amended_witness :
    (runRange1 ⟨⟨0,1,1,1,1⟩,3⟩ ⟨⟨2,1,1,1,1⟩,1⟩ ⟨⟨2,1,1,1,1⟩,1⟩ 0 2).map TraceEvent.p1Of
      = (List.range 2).map (fun (n : Nat) => some (VoxelPtr.mk 0 (n : Int))) :=
  (empty_image_cursor_amended ⟨⟨0,1,1,1,1⟩,3⟩ ⟨⟨2,1,1,1,1⟩,1⟩ ⟨⟨2,1,1,1,1⟩,1⟩
    ⟨2,1,1,1,1⟩ 0 2 (by decide)).2

/-- Counterexample to C4 as stated: on an image whose temporal axis is a
vector/channel axis (dt = 0, the whole-voxel case), the rangeless facade
performs totalVoxels / sizeT = 2 invocations, not totalVoxels = 6 as the
claim assigns to the whole-voxel path. -/
theorem forEachVoxel_dispatch_count_ce :
    countCalls (ForEachVoxel_ref ⟨⟨2,1,1,3,0⟩,1⟩ ⟨⟨2,1,1,3,0⟩,1⟩ ⟨⟨2,1,1,3,0⟩,1⟩ false)
      = 2
    ∧ GetNumberOfVoxels ⟨⟨2,1,1,3,0⟩,1⟩ = 6
    ∧ GetTSize ⟨⟨2,1,1,3,0⟩,1⟩ = 0 := by
  refine ⟨by decide, by decide, by decide⟩

/-- C4 amended: the rangeless sequential and parallel facades decide the
iteration mode once per call, based solely on whether the primary (third)
image reports a nonzero temporal spacing: nonzero spacing (time series)
selects per-scalar iteration over totalVoxels elements, zero spacing
(vector/channel) selects whole-voxel iteration over totalVoxels / sizeT
elements, both via the linear-range path. -/
theorem forEachVoxel_dispatch_amended (parts : List (Nat × Nat))
    (im1 im2 im3 : irtkGenericImage) (vfIsRed : Bool) (ht : 0 < GetT im3) :
    countCalls (ForEachVoxel_ref im1 im2 im3 vfIsRed)
        = (if GetTSize im3 ≠ 0 then GetNumberOfVoxels im3
           else GetNumberOfVoxels im3 / GetT im3)
    ∧ (GetTSize im3 ≠ 0 → chainFrom 0 (GetNumberOfVoxels im3) parts = true →
        countCalls (ParallelForEachVoxel_ref_noRange parts im1 im2 im3 vfIsRed)
          = GetNumberOfVoxels im3)
    ∧ (GetTSize im3 = 0 → chainFrom 0 (GetNumberOfVoxels im3 / GetT im3) parts = true →
        countCalls (ParallelForEachVoxel_ref_noRange parts im1 im2 im3 vfIsRed)
          = GetNumberOfVoxels im3 / GetT im3) := by
  refine ⟨?_, ?_, ?_⟩
  · by_cases hdt : GetTSize im3 ≠ 0
    · rw [ForEachVoxel_ref, if_pos hdt, if_pos hdt, ForEachScalar_ref, countCalls,
        List.countP_append]
      have hb := countCalls_runRange1 im1 im2 im3 0 (GetNumberOfVoxels im3)
      rw [countCalls] at hb
      rw [hb]
      have hj : ([TraceEvent.joinEv FSlot.inside] : List TraceEvent).countP
          TraceEvent.isCall = 0 := by decide
      rw [hj]
      simp
    · rw [ForEachVoxel_ref, if_neg hdt, if_neg hdt, countCalls, List.countP_append]
      have hb := countCalls_runRange1 im1 im2 im3 0 (GetNumberOfVoxels im3 / GetT im3)
      rw [countCalls] at hb
      rw [hb]
      have hj : ([TraceEvent.joinEv FSlot.inside] : List TraceEvent).countP
          TraceEvent.isCall = 0 := by decide
      rw [hj]
      simp
  · intro hdt hch
    rw [ParallelForEachVoxel_ref_noRange, if_pos hdt, ParallelForEachScalar_ref]
    by_cases hv : vfIsRed = true
    · rw [if_pos hv, countCalls, List.countP_append]
      have hb := countCalls_parallel_reduce_range1 im1 im2 im3 parts 0
        (GetNumberOfVoxels im3) FSlot.inside hch
      rw [countCalls] at hb
      rw [hb]
      have hj : ([TraceEvent.joinEv FSlot.inside] : List TraceEvent).countP
          TraceEvent.isCall = 0 := by decide
      rw [hj]
      simp
    · have hv2 : vfIsRed = false := by
        cases vfIsRed with
        | true => exact absurd rfl hv
        | false => rfl
      rw [hv2, if_neg (by decide)]
      have hb := countCalls_parallel_for_range1 im1 im2 im3 parts 0
        (GetNumberOfVoxels im3) hch
      rw [hb]
      simp
  · intro hdt hch
    have hdt2 : ¬ GetTSize im3 ≠ 0 := by
      intro hc
      exact hc hdt
    rw [ParallelForEachVoxel_ref_noRange, if_neg hdt2]
    by_cases hv : vfIsRed = true
    · rw [if_pos hv, countCalls, List.countP_append]
      have hb := countCalls_parallel_reduce_range1 im1 im2 im3 parts 0
        (GetNumberOfVoxels im3 / GetT im3) FSlot.inside hch
      rw [countCalls] at hb
      rw [hb]
      have hj : ([TraceEvent.joinEv FSlot.inside] : List TraceEvent).countP
          TraceEvent.isCall = 0 := by decide
      rw [hj]
      simp
    · have hv2 : vfIsRed = false := by
        cases vfIsRed with
        | true => exact absurd rfl hv
        | false => rfl
      rw [hv2, if_neg (by decide)]
      have hb := countCalls_parallel_for_range1 im1 im2 im3 parts 0
        (GetNumberOfVoxels im3 / GetT im3) hch
      rw [hb]
      simp

/-- Witness for C4 amended at a concrete 2x1x1x1 time-series image (dt = 1)
with a single-partition schedule. -/
theorem forEachVoxel_dispatch_amended_witness :
    countCalls (ForEachVoxel_ref ⟨⟨2,1,1,1,1⟩,1⟩ ⟨⟨2,1,1,1,1⟩,1⟩ ⟨⟨2,1,1,1,1⟩,1⟩ false)
        = (if GetTSize ⟨⟨2,1,1,1,1⟩,1⟩ ≠ 0 then GetNumberOfVoxels ⟨⟨2,1,1,1,1⟩,1⟩
           else GetNumberOfVoxels ⟨⟨2,1,1,1,1⟩,1⟩ / GetT ⟨⟨2,1,1,1,1⟩,1⟩)
    ∧ (GetTSize ⟨⟨2,1,1,1,1⟩,1⟩ ≠ 0 →
        chainFrom 0 (GetNumberOfVoxels ⟨⟨2,1,1,1,1⟩,1⟩) [(0,2)] = true →
        countCalls (ParallelForEachVoxel_ref_noRange [(0,2)] ⟨⟨2,1,1,1,1⟩,1⟩
          ⟨⟨2,1,1,1,1⟩,1⟩ ⟨⟨2,1,1,1,1⟩,1⟩ false) = GetNumberOfVoxels ⟨⟨2,1,1,1,1⟩,1⟩)
    ∧ (GetTSize ⟨⟨2,1,1,1,1⟩,1⟩ = 0 →
        chainFrom 0 (GetNumberOfVoxels ⟨⟨2,1,1,1,1⟩,1⟩ / GetT ⟨⟨2,1,1,1,1⟩,1⟩) [(0,2)]
          = true →
        countCalls (ParallelForEachVoxel_ref_noRange [(0,2)] ⟨⟨2,1,1,1,1⟩,1⟩
          ⟨⟨2,1,1,1,1⟩,1⟩ ⟨⟨2,1,1,1,1⟩,1⟩ false)
          = GetNumberOfVoxels ⟨⟨2,1,1,1,1⟩,1⟩ / GetT ⟨⟨2,1,1,1,1⟩,1⟩) :=
  forEachVoxel_dispatch_amended [(0,2)] ⟨⟨2,1,1,1,1⟩,1⟩ ⟨⟨2,1,1,1,1⟩,1⟩ ⟨⟨2,1,1,1,1⟩,1⟩
    false (by decide)

/-- C1 (code bug at the functor-by-value 3-D-range predicated overload): the
reduction guard does fire fatally, with the message naming the violated
calling convention, before any voxel is processed; but with non-reduction
functors this overload drops its blocked_range3d argument and delegates to
the rangeless whole-image overload instead of the corresponding 3-D-range
functor-by-reference implementation: on a 2-voxel image with a 1-voxel range
it performs 2 invocations where the corresponding implementation performs 1. -/
theorem foreachvoxelif_val_range3d_misdelegates :
    ForEachVoxelIf_val_range3d ⟨fun _ _ _ _ _ _ => true, fun _ _ _ => true⟩ 3 0 1 0 1 0 1
        ⟨⟨2,1,1,1,0⟩,1⟩ ⟨⟨2,1,1,1,0⟩,1⟩ ⟨⟨2,1,1,1,0⟩,1⟩ true false
      = some (CallResult.fatal mustNotBeReductionMessage)
    ∧ okCalls (ForEachVoxelIf_val_range3d ⟨fun _ _ _ _ _ _ => true, fun _ _ _ => true⟩ 3
        0 1 0 1 0 1 ⟨⟨2,1,1,1,0⟩,1⟩ ⟨⟨2,1,1,1,0⟩,1⟩ ⟨⟨2,1,1,1,0⟩,1⟩ false false) = 2
    ∧ countCalls (ForEachVoxelIf_ref_range3d ⟨fun _ _ _ _ _ _ => true, fun _ _ _ => true⟩
        0 1 0 1 0 1 ⟨⟨2,1,1,1,0⟩,1⟩ ⟨⟨2,1,1,1,0⟩,1⟩ ⟨⟨2,1,1,1,0⟩,1⟩) = 1 := by
  refine ⟨by decide, by decide, by decide⟩

/-- C7: for non-empty images of equal extents, a 2-D range traversal over
rows [bj, ej) and columns [bi, ei) invokes the functor exactly once per
(i, j, currentPlane, currentChannel) — the row stride
im3.GetX() - (ei - bi) applied to every cursor at each row boundary makes
each invocation's pointers address exactly the current voxel (bi+m, bj+r, k,
l) of the respective image — and a 3-D range traversal additionally applies
the plane stride (im3.GetY() - (ej - bj)) * im3.GetX() so that each
invocation's pointers address exactly (bi+m, bj+r, bk+q, l). -/
theorem range2d_range3d_cursor_exact (im1 im2 im3 : irtkGenericImage)
    (bi ei bj ej bk ek k l : Nat)
    (h1 : isEmptyIm im1 = false) (h2 : isEmptyIm im2 = false)
    (h3 : isEmptyIm im3 = false)
    (hx1 : im1.attr.x = im3.attr.x) (hx2 : im2.attr.x = im3.attr.x)
    (hy1 : im1.attr.y = im3.attr.y) (hy2 : im2.attr.y = im3.attr.y)
    (hbi : bi ≤ ei) (hbj : bj ≤ ej) :
    runRange2 im1 im2 im3 bi ei bj ej k l
      = (List.range (ej - bj)).flatMap (fun r => (List.range (ei - bi)).map (fun m =>
          .callCoord .inside (bi + m) (bj + r) k l
            (GetPointerToVoxels4 im1 (bi + m) (bj + r) k l)
            (GetPointerToVoxels4 im2 (bi + m) (bj + r) k l)
            (GetPointerToVoxels4 im3 (bi + m) (bj + r) k l)))
    ∧ runRange3 im1 im2 im3 bi ei bj ej bk ek l
      = (List.range (ek - bk)).flatMap (fun q => (List.range (ej - bj)).flatMap (fun r =>
          (List.range (ei - bi)).map (fun m =>
            .callCoord .inside (bi + m) (bj + r) (bk + q) l
              (GetPointerToVoxels4 im1 (bi + m) (bj + r) (bk + q) l)
              (GetPointerToVoxels4 im2 (bi + m) (bj + r) (bk + q) l)
              (GetPointerToVoxels4 im3 (bi + m) (bj + r) (bk + q) l)))) := by
  have e1 : startPtr4 im1 bi bj k l = GetPointerToVoxels4 im1 bi bj k l := by
    simp [startPtr4, h1]
  have e2 : startPtr4 im2 bi bj k l = GetPointerToVoxels4 im2 bi bj k l := by
    simp [startPtr4, h2]
  have e3 : startPtr4 im3 bi bj k l = GetPointerToVoxels4 im3 bi bj k l := by
    simp [startPtr4, h3]
  have f1 : startPtr4 im1 bi bj bk l = GetPointerToVoxels4 im1 bi bj bk l := by
    simp [startPtr4, h1]
  have f2 : startPtr4 im2 bi bj bk l = GetPointerToVoxels4 im2 bi bj bk l := by
    simp [startPtr4, h2]
  have f3 : startPtr4 im3 bi bj bk l = GetPointerToVoxels4 im3 bi bj bk l := by
    simp [startPtr4, h3]
  constructor
  · rw [runRange2, yLoop_eq, e1, e2, e3]
    refine flatMap_congr ?_
    intro r hr
    refine List.map_congr_left ?_
    intro m hm
    simp only [TraceEvent.callCoord.injEq, GetPointerToVoxels4, VoxelPtr.add,
      VoxelPtr.mk.injEq, VoxelIndex, GetX, s1Of, hx1, hx2, hy1, hy2]
    repeat' apply And.intro
    all_goals first | rfl | trivial | (push_cast [Nat.cast_sub hbi, Nat.cast_sub hbj]; ring1)
  · rw [runRange3, zLoop_eq, f1, f2, f3]
    refine flatMap_congr ?_
    intro q hq
    refine flatMap_congr ?_
    intro r hr
    refine List.map_congr_left ?_
    intro m hm
    simp only [TraceEvent.callCoord.injEq, GetPointerToVoxels4, VoxelPtr.add,
      VoxelPtr.mk.injEq, VoxelIndex, GetX, GetY, s1Of, s2Of, hx1, hx2, hy1, hy2]
    repeat' apply And.intro
    all_goals first | rfl | trivial | (push_cast [Nat.cast_sub hbi, Nat.cast_sub hbj]; ring1)

/-- Witness for C7 at three concrete equal-extent 2x2x2x1 images over the
unit sub-ranges. -/
theorem range2d_range3d_cursor_exact_witness :
    runRange2 ⟨⟨2,2,2,1,1⟩,1⟩ ⟨⟨2,2,2,1,1⟩,2⟩ ⟨⟨2,2,2,1,1⟩,3⟩ 0 1 0 1 0 0
      = (List.range (1 - 0)).flatMap (fun r => (List.range (1 - 0)).map (fun m =>
          .callCoord .inside (0 + m) (0 + r) 0 0
            (GetPointerToVoxels4 ⟨⟨2,2,2,1,1⟩,1⟩ (0 + m) (0 + r) 0 0)
            (GetPointerToVoxels4 ⟨⟨2,2,2,1,1⟩,2⟩ (0 + m) (0 + r) 0 0)
            (GetPointerToVoxels4 ⟨⟨2,2,2,1,1⟩,3⟩ (0 + m) (0 + r) 0 0)))
    ∧ runRange3 ⟨⟨2,2,2,1,1⟩,1⟩ ⟨⟨2,2,2,1,1⟩,2⟩ ⟨⟨2,2,2,1,1⟩,3⟩ 0 1 0 1 0 1 0
      = (List.range (1 - 0)).flatMap (fun q => (List.range (1 - 0)).flatMap (fun r =>
          (List.range (1 - 0)).map (fun m =>
            .callCoord .inside (0 + m) (0 + r) (0 + q) 0
              (GetPointerToVoxels4 ⟨⟨2,2,2,1,1⟩,1⟩ (0 + m) (0 + r) (0 + q) 0)
              (GetPointerToVoxels4 ⟨⟨2,2,2,1,1⟩,2⟩ (0 + m) (0 + r) (0 + q) 0)
              (GetPointerToVoxels4 ⟨⟨2,2,2,1,1⟩,3⟩ (0 + m) (0 + r) (0 + q) 0)))) :=
  range2d_range3d_cursor_exact ⟨⟨2,2,2,1,1⟩,1⟩ ⟨⟨2,2,2,1,1⟩,2⟩ ⟨⟨2,2,2,1,1⟩,3⟩
    0 1 0 1 0 1 0 0 (by decide) (by decide) (by decide) (by decide) (by decide)
    (by decide) (by decide) (by decide) (by decide)
